import Mathlib

/-!
Verification development for the `nasa-port` repository.

This file shallowly embeds the two core components of the repository —
the ADQL query builder (`src/nasa_port/builder/query_builder.py`,
`src/nasa_port/builder/spatial.py`) and the rule-based record
normalization pipeline (`src/nasa_port/data_bindings/transforms.py`) —
and proves or refutes the frozen specification claims about them.

Modelling conventions:
* Python strings are Lean `String`s, manipulated through their `List Char`
  data (Python indexing/slicing is by code point, which matches `List Char`).
  Character classes (`\w`, `str.lower`, whitespace) are modelled over ASCII;
  every string appearing in the claims is ASCII.
* Python's dynamically typed record values are the tagged variant `Value`
  (null / int / float / str / bool).  Python floats are modelled as exact
  decimal values `m * 10 ^ (-e)` (constructor `Value.float m e`); binary
  floating point rounding is outside the scope of the claims, and every
  float value the claims mention is exact in this model.  The canonical
  form (no trailing fractional zeros) is the one produced by parsing.
* Fallible Python code returns `Except String α`; an uncaught Python
  exception is an `Except.error`.
* Python `int(...)`/`float(...)` string conversion is modelled including
  sign handling, decimal point, exponent markers, and PEP-515 underscore
  separators between digits (`int("2_3") = 23`), which the repository's
  pipeline actually exercises.
-/

namespace NasaPort

/-! ## Character helpers (ASCII model of Python character classes) -/

def isDigitChar (c : Char) : Bool :=
  48 ≤ c.toNat && c.toNat ≤ 57

def digitVal (c : Char) : Nat :=
  c.toNat - 48

def digitChar (d : Nat) : Char :=
  Char.ofNat (48 + d)

def isUpperChar (c : Char) : Bool :=
  65 ≤ c.toNat && c.toNat ≤ 90

def isLowerChar (c : Char) : Bool :=
  97 ≤ c.toNat && c.toNat ≤ 122

/-- Model of Python `str.lower` on one character (ASCII range). -/
def toLowerChar (c : Char) : Char :=
  if isUpperChar c then Char.ofNat (c.toNat + 32) else c

/-- Model of Python's regex class `\w` (ASCII range): `[A-Za-z0-9_]`. -/
def isWordChar (c : Char) : Bool :=
  isDigitChar c || isLowerChar c || isUpperChar c || c == '_'

/-- Model of Python `str.strip()` whitespace (ASCII): space, \t, \n, \r, \v, \f. -/
def isSpaceChar (c : Char) : Bool :=
  c == ' ' || c == '\t' || c == '\n' || c == '\r' || c.toNat == 11 || c.toNat == 12

/-! ## Decimal digit strings -/

/-- Value of a big-endian digit string, as folded up by positional weight. -/
def digitsVal (cs : List Char) : Nat :=
  cs.foldl (fun a c => a * 10 + digitVal c) 0

/-- Big-endian decimal digits of `n` (empty for `0`); `fuel` bounds recursion
so the definition is structural and kernel-reducible. -/
def natDigitsAux : Nat → Nat → List Char
  | 0, _ => []
  | fuel + 1, n => if n = 0 then [] else natDigitsAux fuel (n / 10) ++ [digitChar (n % 10)]

/-- Decimal rendering of a natural number, as Python `str` renders it. -/
def natRenderChars (n : Nat) : List Char :=
  if n = 0 then ['0'] else natDigitsAux (n + 1) n

/-- Decimal rendering of an integer, as Python `str` renders it. -/
def intRenderChars (n : Int) : List Char :=
  (if n < 0 then ['-'] else []) ++ natRenderChars n.natAbs

def intRender (n : Int) : String :=
  ⟨intRenderChars n⟩

/-! ## Model of Python `int(...)` / `float(...)` string parsing -/

/-- Strip leading characters satisfying `isSpaceChar`. -/
def dropSpaces (cs : List Char) : List Char :=
  cs.dropWhile isSpaceChar

/-- Drop trailing characters satisfying `p` (structurally). -/
def dropTrailing (p : Char → Bool) : List Char → List Char
  | [] => []
  | c :: rest =>
    let r := dropTrailing p rest
    if r.isEmpty then (if p c then [] else [c]) else c :: r

/-- Model of Python `str.strip()` (both ends, default whitespace). -/
def pyStrip (cs : List Char) : List Char :=
  dropTrailing isSpaceChar (dropSpaces cs)

def pyStripStr (s : String) : String :=
  ⟨pyStrip s.data⟩

/-- Split one optional leading sign; `true` means negative. -/
def splitSign : List Char → Bool × List Char
  | [] => (false, [])
  | c :: rest =>
    if c == '+' then (false, rest)
    else if c == '-' then (true, rest)
    else (false, c :: rest)

/-- Does the list start with a digit?  (Lookahead for the underscore rule.) -/
def nextIsDigit : List Char → Bool
  | [] => false
  | d :: _ => isDigitChar d

/-- Validity of the tail of a digit group: every `_` must be followed by a
digit (PEP 515: underscores only between digits). -/
def validGroupTail : List Char → Bool
  | [] => true
  | c :: rest =>
    if c == '_' then nextIsDigit rest && validGroupTail rest
    else isDigitChar c && validGroupTail rest

/-- A valid digit group: nonempty, starts with a digit, underscores only
between digits. -/
def validGroup : List Char → Bool
  | [] => false
  | c :: rest => isDigitChar c && validGroupTail rest

/-- Digits of a group, underscores removed. -/
def groupDigits (cs : List Char) : List Char :=
  cs.filter (fun c => !(c == '_'))

def groupVal (cs : List Char) : Nat :=
  digitsVal (groupDigits cs)

/-- Split at the first character satisfying `p`: returns the part before it
and, when found, the part after it. -/
def splitFirst (p : Char → Bool) : List Char → List Char × Option (List Char)
  | [] => ([], Option.none)
  | c :: rest =>
    if p c then ([], Option.some rest)
    else (c :: (splitFirst p rest).1, (splitFirst p rest).2)

/-- Case-insensitive check for Python's `inf`/`infinity`/`nan` float literals. -/
def isInfNan (cs : List Char) : Bool :=
  let l := cs.map toLowerChar
  l == "inf".data || l == "infinity".data || l == "nan".data

def tenPow : Nat → Nat
  | 0 => 1
  | n + 1 => 10 * tenPow n

def tenPowI : Nat → Int
  | 0 => 1
  | n + 1 => 10 * tenPowI n

/-- Mantissa of a float literal as an exact decimal pair `(m, e)` meaning
`m / 10 ^ e` (not canonicalized): `digits`, `digits.digits`, `digits.`,
`.digits`, with PEP-515 underscores inside each digit group. -/
def mantissaVal (cs : List Char) : Option (Int × Nat) :=
  match splitFirst (fun c => c == '.') cs with
  | (ip, Option.none) =>
    if validGroup ip then Option.some ((groupVal ip : Int), 0) else Option.none
  | (ip, Option.some fp) =>
    match ip, fp with
    | [], [] => Option.none
    | [], f =>
      if validGroup f then Option.some ((groupVal f : Int), (groupDigits f).length)
      else Option.none
    | i, [] =>
      if validGroup i then Option.some ((groupVal i : Int), 0) else Option.none
    | i, f =>
      if validGroup i && validGroup f then
        Option.some ((groupVal i * tenPow (groupDigits f).length + groupVal f : Nat), (groupDigits f).length)
      else Option.none

/-- Negate the mantissa when the literal carried a `-` sign. -/
def applyNeg (neg : Bool) (me : Int × Nat) : Int × Nat :=
  if neg then (-me.1, me.2) else me

/-- Shift a decimal pair by a (possibly negative) power of ten, for the
exponent part of a float literal. -/
def shiftPair (me : Int × Nat) (k : Int) : Int × Nat :=
  match k with
  | Int.ofNat n => (me.1 * tenPowI n, me.2)
  | Int.negSucc n => (me.1, me.2 + (n + 1))

/-- Canonicalize `(m, e)`: remove trailing decimal zeros, i.e. divide out
factors of ten from `m` while `e > 0`. -/
def canonAux : Nat → Int × Nat → Int × Nat
  | 0, p => p
  | fuel + 1, (m, e) =>
    match e with
    | 0 => (m, 0)
    | e' + 1 => if m % 10 == 0 then canonAux fuel (m / 10, e') else (m, e' + 1)

def canonPair (me : Int × Nat) : Int × Nat :=
  canonAux me.2 me

/-- Is `(m, e)` in canonical form (no trailing fractional zero)? -/
def isCanonFloat (m : Int) (e : Nat) : Bool :=
  e == 0 || !(m % 10 == 0)

/-- Core of Python `float(...)` on an already-stripped character list:
optional sign, then `inf`/`nan` (rejected here: the pipeline never reaches
the conversion branch with them, see `convertNumeric`), or mantissa with an
optional `e`/`E` exponent.  Returns the exact decimal value, canonicalized. -/
def floatCore (cs : List Char) : Option (Int × Nat) :=
  if isInfNan (splitSign cs).2 then Option.none
  else
    match splitFirst (fun c => c == 'e' || c == 'E') (splitSign cs).2 with
    | (mant, Option.none) =>
      (mantissaVal mant).map (fun me => canonPair (applyNeg (splitSign cs).1 me))
    | (mant, Option.some ex) =>
      if validGroup (splitSign ex).2 then
        (mantissaVal mant).map (fun me =>
          canonPair (shiftPair (applyNeg (splitSign cs).1 me)
            (if (splitSign ex).1 then -(groupVal (splitSign ex).2 : Int)
             else (groupVal (splitSign ex).2 : Int))))
      else Option.none

/-- Model of Python `float(s)` as an exact decimal value (`none` = raises
`ValueError`, and also for the non-finite literals, see `floatCore`). -/
def pyFloatParse (s : String) : Option (Int × Nat) :=
  floatCore (pyStrip s.data)

/-- Does Python `float(s)` succeed?  (Includes the `inf`/`nan` literals.) -/
def pyFloatAccepts (s : String) : Bool :=
  isInfNan (splitSign (pyStrip s.data)).2 || (floatCore (pyStrip s.data)).isSome

/-- Model of Python `int(s)` (base 10) on an already-stripped character
list: optional sign and one digit group. -/
def pyIntParseCore (cs : List Char) : Option Int :=
  if validGroup (splitSign cs).2 then
    Option.some (if (splitSign cs).1 then -(groupVal (splitSign cs).2 : Int)
      else (groupVal (splitSign cs).2 : Int))
  else Option.none

/-- Model of Python `int(s)` (base 10). -/
def pyIntParse (s : String) : Option Int :=
  pyIntParseCore (pyStrip s.data)

/-! ## Decimal rendering of the float model (Python `str` on a float) -/

/-- The digits of `|m|`, zero-padded on the left to at least `e + 1` digits. -/
def paddedDigits (m : Int) (e : Nat) : List Char :=
  List.replicate (e + 1 - (natRenderChars m.natAbs).length) '0' ++ natRenderChars m.natAbs

/-- The digits before the decimal point of `m / 10 ^ e`. -/
def floatIntPart (m : Int) (e : Nat) : List Char :=
  (paddedDigits m e).take ((paddedDigits m e).length - e)

/-- The digits after the decimal point of `m / 10 ^ e` (a single `0` when
`e = 0`, as Python always prints a fractional part). -/
def floatFracPart (m : Int) (e : Nat) : List Char :=
  (paddedDigits m e).drop ((paddedDigits m e).length - e) ++
    (if e = 0 then ['0'] else [])

/-- Character list of `m / 10 ^ e` in positional decimal notation, as Python
`str` renders a float in the non-scientific range (always with a decimal
point: `(2, 0) ↦ "2.0"`, `(23, 1) ↦ "2.3"`, `(5, 1) ↦ "0.5"`). -/
def floatRenderChars (m : Int) (e : Nat) : List Char :=
  (if m < 0 then ['-'] else []) ++ (floatIntPart m e ++ '.' :: floatFracPart m e)

def floatRender (m : Int) (e : Nat) : String :=
  ⟨floatRenderChars m e⟩

/-! ## Record values

Tagged variant for the dynamically typed values of a record
(`Dict[str, Any]` in the source).  `float m e` is the exact decimal value
`m * 10 ^ (-e)` (see the module comment). -/

inductive Value where
  | null : Value
  | int (n : Int) : Value
  | float (m : Int) (e : Nat) : Value
  | str (s : String) : Value
  | bool (b : Bool) : Value
deriving DecidableEq, Repr

/-- Model of Python `str(...)` on a record value. -/
def pyStr : Value → String
  | Value.null => "None"
  | Value.int n => intRender n
  | Value.float m e => floatRender m e
  | Value.str s => s
  | Value.bool b => if b then "True" else "False"

/-! ## `DataTransformer` (src/nasa_port/data_bindings/transforms.py) -/

/-- Python's `in` on a character list (`'.' in value`). -/
def charIn (c : Char) : List Char → Bool
  | [] => false
  | x :: rest => x == c || charIn c rest

/-- Python's `in` on a list of strings (`value.strip() in null_values`). -/
def strIn (s : String) : List String → Bool
  | [] => false
  | x :: rest => x == s || strIn s rest

/-- Collapse runs of `_` to a single `_`
(Python `re.sub(r'_+', '_', s)`). -/
def collapseUnders : List Char → List Char
  | [] => []
  | [c] => [c]
  | a :: b :: rest =>
    if a == '_' && b == '_' then collapseUnders (b :: rest)
    else a :: collapseUnders (b :: rest)

/-- One character of Python `re.sub(r'[^\w]', '_', s)`. -/
def subWordChar (c : Char) : Char :=
  if isWordChar c then c else '_'

/-- No two adjacent underscores (the invariant `re.sub(r'_+', '_', s)`
establishes). -/
def noDoubleUnder : List Char → Bool
  | [] => true
  | [_] => true
  | a :: b :: rest => !(a == '_' && b == '_') && noDoubleUnder (b :: rest)

/-- `DataTransformer._normalize_column_name` on a string:
lowercase, replace every non-`\w` character by `_`, collapse `_` runs,
strip leading/trailing `_`. -/
def normalizeColumnName (s : String) : String :=
  let lowered := s.data.map toLowerChar
  let subbed := lowered.map subWordChar
  let collapsed := collapseUnders subbed
  ⟨dropTrailing (fun c => c == '_') (collapsed.dropWhile (fun c => c == '_'))⟩

/-- `DataTransformer._normalize_column_name` as a value transform (the
function is registered as the first default rule, so it also receives
record values): a non-string is replaced by `str(value)` immediately. -/
def normalizeValueFn (v : Value) : Value :=
  match v with
  | Value.str s => Value.str (normalizeColumnName s)
  | v => Value.str (pyStr v)

/-- The literal null-sentinel set of `DataTransformer._handle_nulls`. -/
def nullValues : List String :=
  ["", "null", "NULL", "nan", "NaN", "N/A", "n/a", "-", "--"]

/-- `DataTransformer._handle_nulls`. -/
def handleNulls (v : Value) : Value :=
  match v with
  | Value.null => Value.null
  | Value.str s => if strIn (pyStripStr s) nullValues then Value.null else Value.str s
  | v => v

/-- The condition of the third default rule:
`isinstance(x, str) and self._is_numeric_string(x)`. -/
def numericCond (v : Value) : Bool :=
  match v with
  | Value.str s => pyFloatAccepts s
  | _ => false

/-- `DataTransformer._convert_numeric` after the initial
`value = value.strip()` rebinding: every later use sees the stripped value. -/
def convertNumericStr (s' : String) : Value :=
  if s' = "" then Value.null
  else if !(charIn '.' s'.data) && !(charIn 'e' (s'.data.map toLowerChar)) then
    match pyIntParse s' with
    | Option.some n => Value.int n
    | Option.none => Value.str s'
  else
    match pyFloatParse s' with
    | Option.some me => Value.float me.1 me.2
    | Option.none => Value.str s'

/-- `DataTransformer._convert_numeric`. -/
def convertNumeric (v : Value) : Value :=
  match v with
  | Value.str s => convertNumericStr (pyStripStr s)
  | v => v

/-- `TransformRule`: the transform and the optional gating condition are
arbitrary Python callables, so both may raise (`Except.error`). -/
structure TransformRule where
  column : String
  transform : Value → Except String Value
  condition : Option (Value → Except String Bool)
  description : String

/-- The three default rules registered by
`DataTransformer._add_default_rules`, in registration order. -/
def defaultRules : List TransformRule :=
  [⟨"*", fun v => Except.ok (normalizeValueFn v), Option.none,
    "Normalize column names to lowercase with underscores"⟩,
   ⟨"*", fun v => Except.ok (handleNulls v), Option.none,
    "Convert various null representations to None"⟩,
   ⟨"*", fun v => Except.ok (convertNumeric v), Option.some (fun v => Except.ok (numericCond v)),
    "Convert numeric strings to numbers"⟩]

/-- The composite effect of the three default rules on one field value
(name-normalizer-as-value-transform, then null folding, then gated numeric
coercion); `transform_record` with `defaultRules` computes exactly this per
field. -/
def defaultValuePipe (v : Value) : Value :=
  if numericCond (handleNulls (normalizeValueFn v)) then
    convertNumeric (handleNulls (normalizeValueFn v))
  else handleNulls (normalizeValueFn v)

/-- The `try: transformed_value = rule.transform_func(...) except: continue`
block of `transform_record`: a raising transform leaves the value unchanged. -/
def tryTransform (r : TransformRule) (v : Value) : Value :=
  match r.transform v with
  | Except.ok v' => v'
  | Except.error _ => v

/-- One iteration of the rule loop of `transform_record`: the selector check,
the condition gate (evaluated OUTSIDE the `try`, so its exception propagates),
and the guarded transform. -/
def applyRule (key : String) (v : Value) (r : TransformRule) : Except String Value :=
  if (r.column == "*") || (r.column == key) then
    match r.condition with
    | Option.none => Except.ok (tryTransform r v)
    | Option.some c =>
      match c v with
      | Except.error e => Except.error e
      | Except.ok b => Except.ok (if b then tryTransform r v else v)
  else Except.ok v

/-- The full rule loop over one field value. -/
def applyRules (rules : List TransformRule) (key : String) (v : Value) :
    Except String Value :=
  rules.foldlM (fun cur r => applyRule key cur r) v

/-- `transformed[key] = value` on the insertion-ordered dict, modelled as an
association list (existing key keeps its position). -/
def dictInsert (d : List (String × Value)) (k : String) (v : Value) :
    List (String × Value) :=
  match d with
  | [] => [(k, v)]
  | (k', v') :: rest =>
    if k' == k then (k', v) :: rest else (k', v') :: dictInsert rest k v

/-- `DataTransformer.transform_record`. -/
def transformRecord (rules : List TransformRule) (record : List (String × Value)) :
    Except String (List (String × Value)) :=
  record.foldlM
    (fun acc kv =>
      let key := normalizeColumnName kv.1
      (applyRules rules key kv.2).map (fun v => dictInsert acc key v))
    []

/-- `DataTransformer.transform_batch` (a list comprehension, left to right:
the first uncaught exception aborts the whole batch). -/
def transformBatch (rules : List TransformRule) :
    List (List (String × Value)) → Except String (List (List (String × Value)))
  | [] => Except.ok []
  | record :: rest =>
    match transformRecord rules record with
    | Except.error e => Except.error e
    | Except.ok out => (transformBatch rules rest).map (fun outs => out :: outs)

/-! Pure counterparts, used to state that under non-raising conditions the
pipeline is a total, per-field / per-record independent map.  The
`Except.error` branch of a condition is unreachable under that hypothesis
and then defaults to keeping the value. -/

def applyRuleP (key : String) (v : Value) (r : TransformRule) : Value :=
  if (r.column == "*") || (r.column == key) then
    match r.condition with
    | Option.none => tryTransform r v
    | Option.some c =>
      match c v with
      | Except.error _ => v
      | Except.ok b => if b then tryTransform r v else v
  else v

def applyRulesP (rules : List TransformRule) (key : String) (v : Value) : Value :=
  rules.foldl (fun cur r => applyRuleP key cur r) v

def transformRecordP (rules : List TransformRule) (record : List (String × Value)) :
    List (String × Value) :=
  record.foldl
    (fun acc kv =>
      let key := normalizeColumnName kv.1
      dictInsert acc key (applyRulesP rules key kv.2))
    []

/-- No registered rule has a condition that raises. -/
def CondTotal (rules : List TransformRule) : Prop :=
  ∀ r ∈ rules, ∀ c, r.condition = Option.some c → ∀ v, ∃ b, c v = Except.ok b

/-! ## `QueryBuilder` (src/nasa_port/builder/query_builder.py) -/

/-- The mutable state of one `QueryBuilder`, with the source's field names. -/
structure QueryBuilder where
  _select_columns : List String := []
  _from_table : Option String := Option.none
  _where_conditions : List String := []
  _order_by_clause : Option String := Option.none
  _limit_count : Option Int := Option.none
  _group_by_columns : List String := []
  _having_condition : Option String := Option.none
deriving DecidableEq, Repr

/-- `QueryBuilder.__init__`. -/
def emptyBuilder : QueryBuilder := {}

/-- Python truthiness of an optional string (`None` and `""` are falsy). -/
def optStrTruthy : Option String → Bool
  | Option.none => false
  | Option.some s => !(s == "")

/-- Python truthiness of an optional int (`None` and `0` are falsy). -/
def optIntTruthy : Option Int → Bool
  | Option.none => false
  | Option.some n => !(n == 0)

namespace QueryBuilder

/-- `select` with a column list (the string overload stores the singleton
list, which coincides with passing `[columns]`). -/
def select (b : QueryBuilder) (columns : List String) : QueryBuilder :=
  { b with _select_columns := columns }

/-- `from_table` with a plain string (the `TableName` overload passes the
enum's string value). -/
def from_table (b : QueryBuilder) (table : String) : QueryBuilder :=
  { b with _from_table := Option.some table }

/-- `where`: replaces the whole condition list (`where` is a Lean keyword,
hence the trailing underscore). -/
def where_ (b : QueryBuilder) (condition : String) : QueryBuilder :=
  { b with _where_conditions := [condition] }

/-- `and_where`: unconditionally appends with an `AND ` marker. -/
def and_where (b : QueryBuilder) (condition : String) : QueryBuilder :=
  { b with _where_conditions := b._where_conditions ++ ["AND " ++ condition] }

/-- `or_where`: unconditionally appends with an `OR ` marker. -/
def or_where (b : QueryBuilder) (condition : String) : QueryBuilder :=
  { b with _where_conditions := b._where_conditions ++ ["OR " ++ condition] }

/-- `order_by`. -/
def order_by (b : QueryBuilder) (column : String) (ascending : Bool) : QueryBuilder :=
  { b with _order_by_clause :=
      Option.some ("ORDER BY " ++ column ++ " " ++ (if ascending then "ASC" else "DESC")) }

/-- `limit`. -/
def limit (b : QueryBuilder) (count : Int) : QueryBuilder :=
  { b with _limit_count := Option.some count }

/-- `group_by` with a column list. -/
def group_by (b : QueryBuilder) (columns : List String) : QueryBuilder :=
  { b with _group_by_columns := columns }

/-- `having`. -/
def having (b : QueryBuilder) (condition : String) : QueryBuilder :=
  { b with _having_condition := Option.some condition }

end QueryBuilder

/-- Python `'sep'.join(parts)`. -/
def strJoin (sep : String) : List String → String
  | [] => ""
  | [x] => x
  | x :: xs => x ++ sep ++ strJoin sep xs

def isPrefixList : List Char → List Char → Bool
  | [], _ => true
  | _ :: _, [] => false
  | a :: as, b :: bs => a == b && isPrefixList as bs

/-- Python `s.startswith(p)`. -/
def strStartsWith (s p : String) : Bool :=
  isPrefixList p.data s.data

/-- Python `s[n:]` (drop the first `n` code points). -/
def strDropChars (s : String) (n : Nat) : String :=
  ⟨s.data.drop n⟩

/-- The prefix stripping `build` applies to the first stored condition:
`first_condition[4:]` after `startswith('AND ')`, `[3:]` after
`startswith('OR ')`. -/
def stripLeadingOp (s : String) : String :=
  if strStartsWith s "AND " then strDropChars s 4
  else if strStartsWith s "OR " then strDropChars s 3
  else s

/-- The `WHERE` portion of `build` (empty list of parts when there are no
conditions). -/
def whereParts (conds : List String) : List String :=
  match conds with
  | [] => []
  | first :: rest =>
    ["WHERE " ++ stripLeadingOp first ++
      (if rest.isEmpty then "" else " " ++ strJoin " " rest)]

namespace QueryBuilder

/-- `QueryBuilder.build`: validation, then fixed-order serialization
(`TOP` folded into the SELECT clause, no trailing LIMIT). -/
def build (b : QueryBuilder) : Except String String :=
  if b._select_columns.isEmpty then
    Except.error "SELECT columns must be specified"
  else if !(optStrTruthy b._from_table) then
    Except.error "FROM table must be specified"
  else
    let select_str := strJoin "," b._select_columns
    let head :=
      match b._limit_count with
      | Option.some n =>
        if !(n == 0) then "SELECT TOP " ++ intRender n ++ " " ++ select_str
        else "SELECT " ++ select_str
      | Option.none => "SELECT " ++ select_str
    let query_parts :=
      [head, "FROM " ++ b._from_table.getD ""] ++
      whereParts b._where_conditions ++
      (if b._group_by_columns.isEmpty then []
       else ["GROUP BY " ++ strJoin "," b._group_by_columns]) ++
      (if optStrTruthy b._having_condition then
        ["HAVING " ++ b._having_condition.getD ""] else []) ++
      (if optStrTruthy b._order_by_clause then [b._order_by_clause.getD ""] else [])
    Except.ok (strJoin " " query_parts)

/-- `query.replace(' ', '+')` (single-character replacement is a map). -/
def spaceToPlus (s : String) : String :=
  ⟨s.data.map (fun c => if c == ' ' then '+' else c)⟩

/-- `QueryBuilder.to_url_encoded`: builds, then replaces spaces by `+`.
No percent-encoding is performed by the source. -/
def to_url_encoded (b : QueryBuilder) : Except String String :=
  (build b).map spaceToPlus

end QueryBuilder

/-! ## `SpatialConstraints` (src/nasa_port/builder/spatial.py) -/

namespace SpatialConstraints

/-- `SpatialConstraints.polygon`.  The claims instantiate the vertices with
integer literals, so coordinates are embedded as `Int` rendered the way
Python renders integers in an f-string; the vertex-count logic does not
depend on the numeric type. -/
def polygon (coordinates : List (Int × Int)) (coordinate_system : String) :
    Except String String :=
  if coordinates.length < 3 then
    Except.error "Polygon must have at least 3 vertices"
  else
    let coord_str :=
      strJoin "," (coordinates.map (fun p => intRender p.1 ++ "," ++ intRender p.2))
    Except.ok ("contains(point('" ++ coordinate_system ++ "',ra,dec),polygon('" ++
      coordinate_system ++ "'," ++ coord_str ++ "))=1")

end SpatialConstraints

/-- Does `needle` occur as a contiguous substring of `hay`? -/
def listContainsSub (hay needle : List Char) : Bool :=
  match hay with
  | [] => needle.isEmpty
  | _ :: rest => isPrefixList needle hay || listContainsSub rest needle

/-! ## Spec-side model of standard percent-encoding (for claim C6)

Modelled from the spec: C6 appeals to "standard percent-encoding", which the
source never performs; RFC 3986 percent-encoding with the unreserved set
`[A-Za-z0-9-._~]` is embedded here only to compare against the code. -/

def hexChar (n : Nat) : Char :=
  if n < 10 then digitChar n else Char.ofNat (65 + (n - 10))

def isUnreservedChar (c : Char) : Bool :=
  isDigitChar c || isLowerChar c || isUpperChar c ||
    c == '-' || c == '.' || c == '_' || c == '~'

/-- Modelled from the spec: "standard percent-encoding" of an ASCII string
(every non-unreserved octet becomes `%XX`). -/
def specStandardPercentEncode (s : String) : String :=
  ⟨s.data.foldr
    (fun c acc =>
      (if isUnreservedChar c then [c]
       else ['%', hexChar (c.toNat / 16), hexChar (c.toNat % 16)]) ++ acc)
    []⟩

/-! ## Test fixtures used by claim witnesses and counterexamples -/

/-- A rule whose gating condition raises (its transform is the identity). -/
def condRaisingRule : TransformRule :=
  ⟨"*", fun v => Except.ok v, Option.some (fun _ => Except.error "condition raised"),
    "gating predicate that raises"⟩

/-- A rule whose transform always raises (no gating condition). -/
def failingTransformRule : TransformRule :=
  ⟨"*", fun _ => Except.error "transform failed", Option.none,
    "transform that always raises"⟩

/-- The builder `QueryBuilder().select(['a']).from_table('t')`. -/
def builderAT : QueryBuilder :=
  QueryBuilder.from_table (QueryBuilder.select emptyBuilder ["a"]) "t"

/-! # Theorems -/

/-! ## General helper lemmas -/

theorem isPrefixList_self_append (a x : List Char) :
    isPrefixList a (a ++ x) = true := by
  induction a with
  | nil => rfl
  | cons c cs ih => simp [isPrefixList, ih]

theorem listContainsSub_of_isPrefixList {h n : List Char}
    (hp : isPrefixList n h = true) : listContainsSub h n = true := by
  cases h with
  | nil => cases n with
    | nil => rfl
    | cons c cs => simp [isPrefixList] at hp
  | cons c cs => simp [listContainsSub, hp]

theorem listContainsSub_append_self (a n b : List Char) :
    listContainsSub (a ++ (n ++ b)) n = true := by
  induction a with
  | nil => exact listContainsSub_of_isPrefixList (isPrefixList_self_append n b)
  | cons c cs ih => simp [listContainsSub, ih]

theorem listContainsSub_append_self2 (a n b : List Char) :
    listContainsSub ((a ++ n) ++ b) n = true := by
  rw [List.append_assoc]
  exact listContainsSub_append_self a n b

theorem stripLeadingOp_and (c : String) : stripLeadingOp ("AND " ++ c) = c := by
  have h : ("AND " ++ c).data = 'A' :: 'N' :: 'D' :: ' ' :: c.data := by
    rw [String.data_append]; rfl
  simp [stripLeadingOp, strStartsWith, strDropChars, h, isPrefixList]

theorem stripLeadingOp_or (c : String) : stripLeadingOp ("OR " ++ c) = c := by
  have h : ("OR " ++ c).data = 'O' :: 'R' :: ' ' :: c.data := by
    rw [String.data_append]; rfl
  by_cases hand : strStartsWith ("OR " ++ c) "AND "
  · simp [strStartsWith, h, isPrefixList] at hand
  · simp [stripLeadingOp, hand, strStartsWith, strDropChars, h, isPrefixList]

/-! Helper lemmas for column-name canonicalization (claim C10). -/

theorem char_toNat_ofNat_of_lt {n : Nat} (h : n < 55296) :
    (Char.ofNat n).toNat = n := by
  have hv : n.isValidChar := Or.inl h
  rw [Char.ofNat, dif_pos hv]
  rfl

theorem isUpperChar_toLowerChar (c : Char) :
    isUpperChar (toLowerChar c) = false := by
  unfold toLowerChar
  cases hu : isUpperChar c with
  | false => simpa using hu
  | true =>
    simp only [if_true]
    have hb : 65 ≤ c.toNat ∧ c.toNat ≤ 90 := by
      unfold isUpperChar at hu
      simpa using hu
    have ht : (Char.ofNat (c.toNat + 32)).toNat = c.toNat + 32 :=
      char_toNat_ofNat_of_lt (by omega)
    unfold isUpperChar
    rw [ht]
    simp only [Bool.and_eq_false_iff, decide_eq_false_iff_not]
    right
    omega

theorem toLowerChar_of_not_upper {c : Char} (h : isUpperChar c = false) :
    toLowerChar c = c := by
  simp [toLowerChar, h]

theorem isWordChar_subWordChar (c : Char) :
    isWordChar (subWordChar c) = true := by
  unfold subWordChar
  cases hw : isWordChar c with
  | false => simp [isWordChar]
  | true => simpa using hw

theorem subWordChar_of_word {c : Char} (h : isWordChar c = true) :
    subWordChar c = c := by
  simp [subWordChar, h]

theorem isUpperChar_subWordChar_toLower (c : Char) :
    isUpperChar (subWordChar (toLowerChar c)) = false := by
  unfold subWordChar
  cases hw : isWordChar (toLowerChar c) with
  | false => simp [isUpperChar]
  | true => simpa using isUpperChar_toLowerChar c

theorem map_id_of_fix {f : Char → Char} :
    ∀ {l : List Char}, (∀ c ∈ l, f c = c) → l.map f = l
  | [], _ => rfl
  | c :: rest, h => by
    rw [List.map_cons, h c (List.mem_cons_self c rest),
      map_id_of_fix (fun x hx => h x (List.mem_cons_of_mem c hx))]

theorem collapseUnders_cons₂ (a b : Char) (rest : List Char) :
    collapseUnders (a :: b :: rest) =
      if a == '_' && b == '_' then collapseUnders (b :: rest)
      else a :: collapseUnders (b :: rest) := rfl

theorem mem_of_mem_collapseUnders :
    ∀ {l : List Char} {c : Char}, c ∈ collapseUnders l → c ∈ l
  | [], _, h => h
  | [_], _, h => h
  | a :: b :: rest, c, h => by
    rw [collapseUnders_cons₂] at h
    by_cases hab : (a == '_' && b == '_') = true
    · rw [if_pos hab] at h
      exact List.mem_cons_of_mem a (mem_of_mem_collapseUnders h)
    · rw [if_neg hab] at h
      rcases List.mem_cons.mp h with hc | hc
      · exact hc ▸ List.mem_cons_self a (b :: rest)
      · exact List.mem_cons_of_mem a (mem_of_mem_collapseUnders hc)

theorem mem_of_mem_dropWhile {p : Char → Bool} :
    ∀ {l : List Char} {c : Char}, c ∈ l.dropWhile p → c ∈ l
  | [], _, h => h
  | a :: rest, c, h => by
    rw [List.dropWhile_cons] at h
    by_cases ha : p a = true
    · rw [if_pos ha] at h
      exact List.mem_cons_of_mem a (mem_of_mem_dropWhile h)
    · rwa [if_neg ha] at h

theorem dropTrailing_cons (p : Char → Bool) (a : Char) (rest : List Char) :
    dropTrailing p (a :: rest) =
      if (dropTrailing p rest).isEmpty then (if p a then [] else [a])
      else a :: dropTrailing p rest := rfl

theorem mem_of_mem_dropTrailing {p : Char → Bool} :
    ∀ {l : List Char} {c : Char}, c ∈ dropTrailing p l → c ∈ l
  | [], _, h => h
  | a :: rest, c, h => by
    rw [dropTrailing_cons] at h
    cases hdt : dropTrailing p rest with
    | nil =>
      rw [hdt] at h
      simp only [List.isEmpty_nil, if_true] at h
      by_cases hp : p a = true
      · rw [if_pos hp] at h
        cases h
      · rw [if_neg hp] at h
        rcases List.mem_singleton.mp h with hc
        exact hc ▸ List.mem_cons_self a rest
    | cons x xs =>
      rw [hdt] at h
      simp only [List.isEmpty_cons, if_false, Bool.false_eq_true] at h
      rcases List.mem_cons.mp h with hc | hc
      · exact hc ▸ List.mem_cons_self a rest
      · exact List.mem_cons_of_mem a (mem_of_mem_dropTrailing (hdt ▸ hc))

theorem bnot_and_eq_false {a b : Bool} (h : (!(a && b)) = true) :
    (a && b) = false := by
  cases hab : (a && b) with
  | false => rfl
  | true => rw [hab] at h; exact absurd h (by decide)

theorem noDoubleUnder_cons {a : Char} {t : List Char}
    (ht : noDoubleUnder t = true)
    (hh : ∀ x, t.head? = Option.some x → (a == '_' && x == '_') = false) :
    noDoubleUnder (a :: t) = true := by
  cases t with
  | nil => rfl
  | cons x xs =>
    have := hh x rfl
    simp [noDoubleUnder, this, ht]

theorem noDoubleUnder_tail {c : Char} {t : List Char}
    (h : noDoubleUnder (c :: t) = true) : noDoubleUnder t = true := by
  cases t with
  | nil => rfl
  | cons x xs =>
    simp [noDoubleUnder] at h
    simp [noDoubleUnder, h.2]

theorem collapseUnders_head_of_ne {b : Char} (hb : (b == '_') = false)
    (rest : List Char) : ∃ t, collapseUnders (b :: rest) = b :: t := by
  cases rest with
  | nil => exact ⟨[], rfl⟩
  | cons c r =>
    rw [collapseUnders_cons₂]
    simp only [hb, Bool.false_and, if_neg]
    exact ⟨collapseUnders (c :: r), by simp⟩

theorem collapseUnders_head_under :
    ∀ rest : List Char, ∃ t, collapseUnders ('_' :: rest) = '_' :: t
  | [] => ⟨[], rfl⟩
  | c :: r => by
    rw [collapseUnders_cons₂]
    cases hc : (c == '_') with
    | true =>
      rw [if_pos (by simp [hc])]
      have hc' : c = '_' := by simpa using hc
      subst hc'
      exact collapseUnders_head_under r
    | false =>
      rw [if_neg (by simp [hc])]
      exact ⟨collapseUnders (c :: r), rfl⟩

theorem noDoubleUnder_collapseUnders :
    ∀ l : List Char, noDoubleUnder (collapseUnders l) = true
  | [] => rfl
  | [_] => rfl
  | a :: b :: rest => by
    rw [collapseUnders_cons₂]
    by_cases hab : (a == '_' && b == '_') = true
    · rw [if_pos hab]
      exact noDoubleUnder_collapseUnders (b :: rest)
    · rw [if_neg hab]
      refine noDoubleUnder_cons (noDoubleUnder_collapseUnders (b :: rest)) ?_
      intro x hx
      by_cases ha : (a == '_') = true
      · have hb : (b == '_') = false := by
          cases hbv : b == '_' with
          | false => rfl
          | true => exact absurd (by simp [ha, hbv]) hab
        obtain ⟨t, hcoll⟩ := collapseUnders_head_of_ne hb rest
        rw [hcoll] at hx
        cases hx
        simp [hb]
      · simp at ha
        simp [ha]

theorem collapseUnders_of_noDouble :
    ∀ {l : List Char}, noDoubleUnder l = true → collapseUnders l = l
  | [], _ => rfl
  | [_], _ => rfl
  | a :: b :: rest, h => by
    simp only [noDoubleUnder, Bool.and_eq_true] at h
    have hab : (a == '_' && b == '_') = false := bnot_and_eq_false h.1
    rw [collapseUnders_cons₂, if_neg (by simp [hab]),
      collapseUnders_of_noDouble h.2]

theorem noDoubleUnder_dropWhile {p : Char → Bool} :
    ∀ {l : List Char}, noDoubleUnder l = true →
      noDoubleUnder (l.dropWhile p) = true
  | [], _ => rfl
  | a :: rest, h => by
    rw [List.dropWhile_cons]
    by_cases ha : p a = true
    · rw [if_pos ha]
      exact noDoubleUnder_dropWhile (noDoubleUnder_tail h)
    · rwa [if_neg ha]

theorem dropTrailing_head {p : Char → Bool} :
    ∀ {l : List Char} {x : Char} {xs : List Char},
      dropTrailing p l = x :: xs → ∃ ys, l = x :: ys
  | [], _, _, h => by cases h
  | a :: rest, x, xs, h => by
    rw [dropTrailing_cons] at h
    cases hdt : dropTrailing p rest with
    | nil =>
      rw [hdt] at h
      simp only [List.isEmpty_nil, if_true] at h
      by_cases hp : p a = true
      · rw [if_pos hp] at h
        cases h
      · rw [if_neg hp] at h
        cases h
        exact ⟨rest, rfl⟩
    | cons y ys =>
      rw [hdt] at h
      simp only [List.isEmpty_cons, if_false, Bool.false_eq_true] at h
      cases h
      exact ⟨rest, rfl⟩

theorem noDoubleUnder_dropTrailing {p : Char → Bool} :
    ∀ {l : List Char}, noDoubleUnder l = true →
      noDoubleUnder (dropTrailing p l) = true
  | [], _ => rfl
  | a :: rest, h => by
    rw [dropTrailing_cons]
    cases hdt : dropTrailing p rest with
    | nil =>
      by_cases hp : p a = true
      · simp [hp, noDoubleUnder]
      · simp [hp, noDoubleUnder]
    | cons x xs =>
      simp only [List.isEmpty_cons, if_false, Bool.false_eq_true]
      have hrest : noDoubleUnder (x :: xs) = true :=
        hdt ▸ noDoubleUnder_dropTrailing (noDoubleUnder_tail h)
      refine noDoubleUnder_cons hrest ?_
      intro y hy
      cases hy
      obtain ⟨ys, hys⟩ := dropTrailing_head hdt
      subst hys
      simp only [noDoubleUnder, Bool.and_eq_true] at h
      exact bnot_and_eq_false h.1

theorem head_dropWhile_not {p : Char → Bool} :
    ∀ {l : List Char} {x : Char},
      (l.dropWhile p).head? = Option.some x → p x = false
  | [], _, h => by cases h
  | a :: rest, x, h => by
    rw [List.dropWhile_cons] at h
    by_cases ha : p a = true
    · rw [if_pos ha] at h
      exact head_dropWhile_not h
    · rw [if_neg ha] at h
      cases h
      simpa using ha

theorem dropWhile_of_head_not {p : Char → Bool} {l : List Char}
    (h : ∀ x, l.head? = Option.some x → p x = false) :
    l.dropWhile p = l := by
  cases l with
  | nil => rfl
  | cons a rest => rw [List.dropWhile_cons, if_neg (by simp [h a rfl])]

theorem head_dropTrailing_dropWhile_not {p : Char → Bool} {l : List Char} {x : Char}
    (hx : (dropTrailing p (l.dropWhile p)).head? = Option.some x) : p x = false := by
  cases hdt : dropTrailing p (l.dropWhile p) with
  | nil => rw [hdt] at hx; cases hx
  | cons y ys =>
    rw [hdt] at hx
    obtain ⟨zs, hzs⟩ := dropTrailing_head hdt
    have hh : (l.dropWhile p).head? = Option.some y := by rw [hzs]; rfl
    have hpy := head_dropWhile_not hh
    have hxy : x = y := by
      rw [List.head?_cons] at hx
      exact (Option.some.inj hx).symm
    rw [hxy]
    exact hpy

theorem dropTrailing_idem {p : Char → Bool} :
    ∀ l : List Char, dropTrailing p (dropTrailing p l) = dropTrailing p l
  | [] => rfl
  | a :: rest => by
    rw [dropTrailing_cons]
    cases hdt : dropTrailing p rest with
    | nil =>
      by_cases hp : p a = true
      · simp [hp]
        rfl
      · simp [hp, dropTrailing_cons, dropTrailing]
    | cons x xs =>
      simp only [List.isEmpty_cons, if_false, Bool.false_eq_true]
      have hidem : dropTrailing p (x :: xs) = x :: xs := by
        rw [← hdt, dropTrailing_idem rest]
      rw [dropTrailing_cons, hidem]
      simp

/-- `build` fails exactly when the select list is empty or the from-table is
Python-falsy (unset or the empty string). -/
theorem build_error_iff (b : QueryBuilder) :
    (∃ e, QueryBuilder.build b = Except.error e) ↔
      (b._select_columns = [] ∨ b._from_table = Option.none ∨
        b._from_table = Option.some "") := by
  by_cases hsel : b._select_columns = []
  · simp [QueryBuilder.build, hsel]
  · have hselF : b._select_columns.isEmpty = false := by
      simpa [List.isEmpty_iff] using hsel
    cases hft : b._from_table with
    | none => simp [QueryBuilder.build, hselF, hsel, hft, optStrTruthy]
    | some t =>
      by_cases ht : t = ""
      · subst ht
        simp [QueryBuilder.build, hselF, hsel, hft, optStrTruthy]
      · simp [QueryBuilder.build, hselF, hsel, hft, optStrTruthy, ht]

/-! Helper lemmas for the transform pipeline's error handling. -/

theorem applyRules_cons (r : TransformRule) (rules : List TransformRule)
    (key : String) (v : Value) :
    applyRules (r :: rules) key v =
      (applyRule key v r).bind (fun w => applyRules rules key w) := by
  simp [applyRules, List.foldlM]
  rfl

theorem applyRules_nil (key : String) (v : Value) :
    applyRules [] key v = Except.ok v := rfl

theorem applyRules_append (rules1 rules2 : List TransformRule)
    (key : String) (v : Value) :
    applyRules (rules1 ++ rules2) key v =
      (applyRules rules1 key v).bind (fun w => applyRules rules2 key w) := by
  induction rules1 generalizing v with
  | nil => simp [applyRules_nil, Except.bind]
  | cons r rest ih =>
    rw [List.cons_append, applyRules_cons, applyRules_cons]
    cases applyRule key v r with
    | error e => rfl
    | ok w => simp [Except.bind, ih]

theorem condTotal_cons {r : TransformRule} {rules : List TransformRule}
    (h : CondTotal (r :: rules)) : CondTotal rules :=
  fun r' hr' c hc v => h r' (List.mem_cons_of_mem r hr') c hc v

theorem applyRules_of_condTotal {rules : List TransformRule}
    (h : CondTotal rules) (key : String) (v : Value) :
    applyRules rules key v = Except.ok (applyRulesP rules key v) := by
  induction rules generalizing v with
  | nil => rfl
  | cons r rest ih =>
    rw [applyRules_cons]
    have hstep : applyRule key v r = Except.ok (applyRuleP key v r) := by
      unfold applyRule applyRuleP
      cases hcol : (r.column == "*" || r.column == key) with
      | false => simp
      | true =>
        simp only [if_true]
        cases hc : r.condition with
        | none => rfl
        | some c =>
          obtain ⟨b, hb⟩ := h r (List.mem_cons_self r rest) c hc v
          simp [hb]
    rw [hstep]
    have : applyRulesP (r :: rest) key v = applyRulesP rest key (applyRuleP key v r) := rfl
    rw [this]
    exact ih (condTotal_cons h) (applyRuleP key v r)

theorem transformRecord_of_condTotal {rules : List TransformRule}
    (h : CondTotal rules) (record : List (String × Value)) :
    transformRecord rules record = Except.ok (transformRecordP rules record) := by
  suffices hgen : ∀ acc : List (String × Value),
      record.foldlM
        (fun acc kv =>
          let key := normalizeColumnName kv.1
          (applyRules rules key kv.2).map (fun v => dictInsert acc key v)) acc =
      Except.ok (record.foldl
        (fun acc kv =>
          let key := normalizeColumnName kv.1
          dictInsert acc key (applyRulesP rules key kv.2)) acc) by
    exact hgen []
  induction record with
  | nil => intro acc; rfl
  | cons kv rest ih =>
    intro acc
    simp only [List.foldlM, List.foldl]
    rw [applyRules_of_condTotal h]
    exact ih _

theorem transformBatch_of_condTotal {rules : List TransformRule}
    (h : CondTotal rules) (records : List (List (String × Value))) :
    transformBatch rules records =
      Except.ok (records.map (transformRecordP rules)) := by
  induction records with
  | nil => rfl
  | cons record rest ih =>
    simp only [transformBatch, List.map]
    rw [transformRecord_of_condTotal h, ih]
    rfl

/-! Helper lemmas for decimal rendering and Python number parsing (claim C5). -/

theorem toNat_digitChar {d : Nat} (h : d < 10) : (digitChar d).toNat = 48 + d := by
  unfold digitChar
  exact char_toNat_ofNat_of_lt (by omega)

theorem isDigitChar_digitChar {d : Nat} (h : d < 10) :
    isDigitChar (digitChar d) = true := by
  simp [isDigitChar, toNat_digitChar h]
  omega

theorem digitVal_digitChar {d : Nat} (h : d < 10) : digitVal (digitChar d) = d := by
  simp [digitVal, toNat_digitChar h]

theorem digit_toNat_bounds {c : Char} (h : isDigitChar c = true) :
    48 ≤ c.toNat ∧ c.toNat ≤ 57 := by
  simpa [isDigitChar] using h

theorem char_beq_false_of_toNat_ne {c d : Char} (h : c.toNat ≠ d.toNat) :
    (c == d) = false :=
  beq_eq_false_iff_ne.mpr (fun hcd => h (by rw [hcd]))

theorem digit_not_space {c : Char} (h : isDigitChar c = true) :
    isSpaceChar c = false := by
  obtain ⟨h1, h2⟩ := digit_toNat_bounds h
  cases hsp : isSpaceChar c with
  | false => rfl
  | true =>
    exfalso
    unfold isSpaceChar at hsp
    simp only [Bool.or_eq_true, beq_iff_eq] at hsp
    rcases hsp with ((((rfl | rfl) | rfl) | rfl) | hc) | hc
    · exact absurd h1 (by decide)
    · exact absurd h1 (by decide)
    · exact absurd h1 (by decide)
    · exact absurd h1 (by decide)
    · omega
    · omega

theorem digit_ne_special {c : Char} (h : isDigitChar c = true) :
    (c == '_') = false ∧ (c == '.') = false ∧ (c == '+') = false ∧
    (c == '-') = false ∧ (c == 'e') = false ∧ (c == 'E') = false := by
  obtain ⟨h1, h2⟩ := digit_toNat_bounds h
  refine ⟨?_, ?_, ?_, ?_, ?_, ?_⟩
  · exact char_beq_false_of_toNat_ne (by have hv : ('_').toNat = 95 := rfl; omega)
  · exact char_beq_false_of_toNat_ne (by have hv : ('.').toNat = 46 := rfl; omega)
  · exact char_beq_false_of_toNat_ne (by have hv : ('+').toNat = 43 := rfl; omega)
  · exact char_beq_false_of_toNat_ne (by have hv : ('-').toNat = 45 := rfl; omega)
  · exact char_beq_false_of_toNat_ne (by have hv : ('e').toNat = 101 := rfl; omega)
  · exact char_beq_false_of_toNat_ne (by have hv : ('E').toNat = 69 := rfl; omega)

theorem digit_not_upper {c : Char} (h : isDigitChar c = true) :
    isUpperChar c = false := by
  obtain ⟨h1, h2⟩ := digit_toNat_bounds h
  unfold isUpperChar
  simp only [Bool.and_eq_false_iff, decide_eq_false_iff_not]
  left
  omega

theorem toLowerChar_digit {c : Char} (h : isDigitChar c = true) :
    toLowerChar c = c :=
  toLowerChar_of_not_upper (digit_not_upper h)

theorem digitsVal_from (l : List Char) : ∀ init : Nat,
    l.foldl (fun a c => a * 10 + digitVal c) init =
      init * tenPow l.length + digitsVal l := by
  induction l with
  | nil => intro init; simp [digitsVal, tenPow]
  | cons c t ih =>
    intro init
    have hv : digitsVal (c :: t) = digitVal c * tenPow t.length + digitsVal t := by
      show List.foldl (fun a c => a * 10 + digitVal c) 0 (c :: t) = _
      rw [List.foldl_cons, ih (0 * 10 + digitVal c)]
      show (0 * 10 + digitVal c) * tenPow t.length + digitsVal t = _
      ring
    simp only [List.foldl_cons, List.length_cons]
    rw [ih (init * 10 + digitVal c), hv]
    have ht : tenPow (t.length + 1) = 10 * tenPow t.length := rfl
    rw [ht]
    ring

theorem digitsVal_append (a b : List Char) :
    digitsVal (a ++ b) = digitsVal a * tenPow b.length + digitsVal b := by
  unfold digitsVal
  rw [List.foldl_append]
  exact digitsVal_from b _

theorem digitsVal_replicate_zero (k : Nat) (l : List Char) :
    digitsVal (List.replicate k '0' ++ l) = digitsVal l := by
  rw [digitsVal_append]
  have hz : digitsVal (List.replicate k '0') = 0 := by
    induction k with
    | zero => rfl
    | succ n ih =>
      rw [List.replicate_succ]
      unfold digitsVal
      simp only [List.foldl_cons]
      have h0 : (0 * 10 + digitVal '0') = 0 := by decide
      rw [h0]
      exact ih
  rw [hz]
  simp

theorem lt_tenPow (n : Nat) : n < tenPow n := by
  induction n with
  | zero => decide
  | succ k ih =>
    have h : tenPow (k + 1) = 10 * tenPow k := rfl
    omega

theorem natDigitsAux_spec : ∀ (fuel n : Nat), n < tenPow fuel →
    digitsVal (natDigitsAux fuel n) = n ∧
    (∀ c ∈ natDigitsAux fuel n, isDigitChar c = true) ∧
    (n ≠ 0 → natDigitsAux fuel n ≠ [])
  | 0, n, h => by
    have hn : n = 0 := by
      have h1 : tenPow 0 = 1 := rfl
      omega
    subst hn
    exact ⟨rfl, by simp [natDigitsAux], fun hn => absurd rfl hn⟩
  | fuel + 1, n, h => by
    by_cases hn : n = 0
    · subst hn
      refine ⟨rfl, ?_, fun hn => absurd rfl hn⟩
      simp [natDigitsAux]
    · have hL : natDigitsAux (fuel + 1) n =
          natDigitsAux fuel (n / 10) ++ [digitChar (n % 10)] := by
        rw [natDigitsAux, if_neg hn]
      have hdiv : n / 10 < tenPow fuel := by
        have h10 : tenPow (fuel + 1) = 10 * tenPow fuel := rfl
        exact Nat.div_lt_of_lt_mul (by omega)
      obtain ⟨ih1, ih2, _⟩ := natDigitsAux_spec fuel (n / 10) hdiv
      have hmod : n % 10 < 10 := Nat.mod_lt n (by omega)
      refine ⟨?_, ?_, ?_⟩
      · rw [hL, digitsVal_append, ih1]
        have hone : digitsVal [digitChar (n % 10)] = n % 10 := by
          unfold digitsVal
          simp [digitVal_digitChar hmod]
        have hlen : tenPow ([digitChar (n % 10)]).length = 10 := rfl
        rw [hone, hlen]
        omega
      · intro c hc
        rw [hL] at hc
        rcases List.mem_append.mp hc with hc | hc
        · exact ih2 c hc
        · rcases List.mem_singleton.mp hc with rfl
          exact isDigitChar_digitChar hmod
      · intro _
        rw [hL]
        simp

theorem natRenderChars_spec (n : Nat) :
    digitsVal (natRenderChars n) = n ∧
    (∀ c ∈ natRenderChars n, isDigitChar c = true) ∧
    natRenderChars n ≠ [] := by
  unfold natRenderChars
  by_cases hn : n = 0
  · subst hn
    rw [if_pos rfl]
    refine ⟨rfl, ?_, by simp⟩
    intro c hc
    rcases List.mem_singleton.mp hc with rfl
    decide
  · rw [if_neg hn]
    have hlt : n < tenPow (n + 1) := by
      have h1 := lt_tenPow n
      have h2 : tenPow (n + 1) = 10 * tenPow n := rfl
      omega
    obtain ⟨h1, h2, h3⟩ := natDigitsAux_spec (n + 1) n hlt
    exact ⟨h1, h2, h3 hn⟩

theorem dropWhile_of_all_not {p : Char → Bool} {l : List Char}
    (h : ∀ c ∈ l, p c = false) : l.dropWhile p = l := by
  cases l with
  | nil => rfl
  | cons c t =>
    rw [List.dropWhile_cons, if_neg (by simp [h c (List.mem_cons_self c t)])]

theorem dropTrailing_of_all_not {p : Char → Bool} :
    ∀ {l : List Char}, (∀ c ∈ l, p c = false) → dropTrailing p l = l
  | [], _ => rfl
  | c :: t, h => by
    rw [dropTrailing_cons,
      dropTrailing_of_all_not (fun x hx => h x (List.mem_cons_of_mem c hx))]
    cases t with
    | nil =>
      have hc := h c (List.mem_singleton.mpr rfl)
      simp [hc]
    | cons a b => simp

theorem pyStrip_of_all_not {l : List Char}
    (h : ∀ c ∈ l, isSpaceChar c = false) : pyStrip l = l := by
  unfold pyStrip dropSpaces
  rw [dropWhile_of_all_not h, dropTrailing_of_all_not h]

theorem validGroupTail_digits :
    ∀ {l : List Char}, (∀ c ∈ l, isDigitChar c = true) → validGroupTail l = true
  | [], _ => rfl
  | c :: t, h => by
    have hc := h c (List.mem_cons_self c t)
    have hne := (digit_ne_special hc).1
    show (if c == '_' then nextIsDigit t && validGroupTail t
      else isDigitChar c && validGroupTail t) = true
    rw [if_neg (by simp [hne])]
    simp [hc, validGroupTail_digits (fun x hx => h x (List.mem_cons_of_mem c hx))]

theorem validGroup_digits {l : List Char} (hne : l ≠ [])
    (h : ∀ c ∈ l, isDigitChar c = true) : validGroup l = true := by
  cases l with
  | nil => exact absurd rfl hne
  | cons c t =>
    rw [validGroup]
    simp [h c (List.mem_cons_self c t),
      validGroupTail_digits (fun x hx => h x (List.mem_cons_of_mem c hx))]

theorem groupDigits_of_digits {l : List Char}
    (h : ∀ c ∈ l, isDigitChar c = true) : groupDigits l = l := by
  unfold groupDigits
  rw [List.filter_eq_self]
  intro a ha
  simp [(digit_ne_special (h a ha)).1]

theorem splitFirst_of_all_not {p : Char → Bool} :
    ∀ {l : List Char}, (∀ c ∈ l, p c = false) → splitFirst p l = (l, Option.none)
  | [], _ => rfl
  | c :: t, h => by
    rw [splitFirst, if_neg (by simp [h c (List.mem_cons_self c t)]),
      splitFirst_of_all_not (fun x hx => h x (List.mem_cons_of_mem c hx))]

theorem splitFirst_append {p : Char → Bool} {c : Char} (hc : p c = true) :
    ∀ {a : List Char} (b : List Char), (∀ x ∈ a, p x = false) →
      splitFirst p (a ++ c :: b) = (a, Option.some b)
  | [], b, _ => by
    rw [List.nil_append, splitFirst, if_pos hc]
  | x :: xs, b, h => by
    have hx : p x = false := h x (List.mem_cons_self x xs)
    rw [List.cons_append, splitFirst, if_neg (by simp [hx]),
      splitFirst_append hc b (fun y hy => h y (List.mem_cons_of_mem x hy))]

theorem splitSign_of_ne {c : Char} (h1 : (c == '+') = false)
    (h2 : (c == '-') = false) (t : List Char) :
    splitSign (c :: t) = (false, c :: t) := by
  rw [splitSign, if_neg (by simp [h1]), if_neg (by simp [h2])]

theorem splitSign_neg (t : List Char) : splitSign ('-' :: t) = (true, t) := rfl

theorem charIn_eq_false_of_all {d : Char} :
    ∀ {l : List Char}, (∀ c ∈ l, (c == d) = false) → charIn d l = false
  | [], _ => rfl
  | c :: t, h => by
    rw [charIn]
    simp [h c (List.mem_cons_self c t),
      charIn_eq_false_of_all (fun x hx => h x (List.mem_cons_of_mem c hx))]

theorem charIn_of_mem {d : Char} :
    ∀ {l : List Char}, d ∈ l → charIn d l = true
  | [], h => by cases h
  | c :: t, h => by
    rw [charIn]
    rcases List.mem_cons.mp h with rfl | hm
    · simp
    · simp [charIn_of_mem hm]

theorem mem_of_strIn {s : String} :
    ∀ {l : List String}, strIn s l = true → s ∈ l
  | [], h => by cases h
  | x :: t, h => by
    rw [strIn] at h
    rcases Bool.or_eq_true_iff.mp h with hx | ht
    · have : x = s := by simpa using hx
      exact this ▸ List.mem_cons_self x t
    · exact List.mem_cons_of_mem x (mem_of_strIn ht)

theorem strIn_nullValues_false_of_digit {s : String}
    (hd : ∃ c ∈ s.data, isDigitChar c = true) : strIn s nullValues = false := by
  cases hin : strIn s nullValues with
  | false => rfl
  | true =>
    exfalso
    have hmem : s ∈ nullValues := mem_of_strIn hin
    obtain ⟨c, hc, hdc⟩ := hd
    have hall : ∀ w ∈ nullValues, ∀ x ∈ w.data, isDigitChar x = false := by decide
    exact absurd hdc (by simp [hall s hmem c hc])

theorem isInfNan_eq_false_of_digit {l : List Char}
    (hd : ∃ c ∈ l, isDigitChar c = true) : isInfNan l = false := by
  obtain ⟨c, hc, hdc⟩ := hd
  have hmaps : ∀ w : List Char, (∀ x ∈ w, isDigitChar x = false) →
      (l.map toLowerChar == w) = false := by
    intro w hw
    cases hb : l.map toLowerChar == w with
    | false => rfl
    | true =>
      exfalso
      have heq : l.map toLowerChar = w := by simpa using hb
      have hcm : toLowerChar c ∈ w := heq ▸ List.mem_map_of_mem toLowerChar hc
      rw [toLowerChar_digit hdc] at hcm
      exact absurd hdc (by simp [hw c hcm])
  have hdef : isInfNan l =
      (l.map toLowerChar == "inf".data || l.map toLowerChar == "infinity".data ||
        l.map toLowerChar == "nan".data) := rfl
  rw [hdef, hmaps "inf".data (by decide), hmaps "infinity".data (by decide),
    hmaps "nan".data (by decide)]
  rfl

/-! Round trip of integer rendering through the pipeline's parsers. -/

theorem intRenderChars_eq_nonneg {n : Int} (h : 0 ≤ n) :
    intRenderChars n = natRenderChars n.natAbs := by
  unfold intRenderChars
  rw [if_neg (by omega), List.nil_append]

theorem intRenderChars_eq_neg {n : Int} (h : n < 0) :
    intRenderChars n = '-' :: natRenderChars n.natAbs := by
  unfold intRenderChars
  rw [if_pos h]
  rfl

theorem intRenderChars_chars (n : Int) :
    ∀ c ∈ intRenderChars n, isDigitChar c = true ∨ c = '-' := by
  intro c hc
  unfold intRenderChars at hc
  rcases List.mem_append.mp hc with hc | hc
  · by_cases hn : n < 0
    · rw [if_pos hn] at hc
      rcases List.mem_singleton.mp hc with rfl
      exact Or.inr rfl
    · rw [if_neg hn] at hc
      cases hc
  · exact Or.inl ((natRenderChars_spec n.natAbs).2.1 c hc)

theorem intRenderChars_not_space (n : Int) :
    ∀ c ∈ intRenderChars n, isSpaceChar c = false := by
  intro c hc
  rcases intRenderChars_chars n c hc with h | rfl
  · exact digit_not_space h
  · decide

theorem pyStrip_intRender (n : Int) :
    pyStrip (intRender n).data = intRenderChars n :=
  pyStrip_of_all_not (intRenderChars_not_space n)

theorem pyIntParseCore_digits {l : List Char} (hne : l ≠ [])
    (hd : ∀ c ∈ l, isDigitChar c = true) :
    pyIntParseCore l = Option.some ((digitsVal l : Int)) ∧
    pyIntParseCore ('-' :: l) = Option.some (-(digitsVal l : Int)) := by
  obtain ⟨c0, t0, rfl⟩ := List.exists_cons_of_ne_nil hne
  have hc0 := hd c0 (List.mem_cons_self c0 t0)
  have hsplit : splitSign (c0 :: t0) = (false, c0 :: t0) :=
    splitSign_of_ne (digit_ne_special hc0).2.2.1 (digit_ne_special hc0).2.2.2.1 t0
  have hvg := validGroup_digits hne hd
  have hgv : groupVal (c0 :: t0) = digitsVal (c0 :: t0) := by
    unfold groupVal
    rw [groupDigits_of_digits hd]
  constructor
  · unfold pyIntParseCore
    rw [hsplit]
    rw [if_pos hvg, hgv]
    rfl
  · unfold pyIntParseCore
    rw [show splitSign ('-' :: c0 :: t0) = (true, c0 :: t0) from rfl]
    rw [if_pos hvg, hgv]
    rfl

theorem pyIntParse_render (n : Int) : pyIntParse (intRender n) = Option.some n := by
  obtain ⟨hval, hdig, hne⟩ := natRenderChars_spec n.natAbs
  unfold pyIntParse
  rw [pyStrip_intRender]
  by_cases hn : n < 0
  · rw [intRenderChars_eq_neg hn, (pyIntParseCore_digits hne hdig).2, hval]
    congr 1
    omega
  · rw [intRenderChars_eq_nonneg (by omega), (pyIntParseCore_digits hne hdig).1, hval]
    congr 1
    omega

theorem mantissaVal_digits {l : List Char} (hne : l ≠ [])
    (hd : ∀ c ∈ l, isDigitChar c = true) :
    mantissaVal l = Option.some ((digitsVal l : Int), 0) := by
  unfold mantissaVal
  rw [splitFirst_of_all_not (fun c hc => by simp [(digit_ne_special (hd c hc)).2.1])]
  dsimp only
  rw [if_pos (validGroup_digits hne hd)]
  unfold groupVal
  rw [groupDigits_of_digits hd]

theorem floatCore_digits {l : List Char} (hne : l ≠ [])
    (hd : ∀ c ∈ l, isDigitChar c = true) :
    floatCore l = Option.some ((digitsVal l : Int), 0) ∧
    floatCore ('-' :: l) = Option.some (-(digitsVal l : Int), 0) := by
  obtain ⟨c0, t0, rfl⟩ := List.exists_cons_of_ne_nil hne
  have hc0 := hd c0 (List.mem_cons_self c0 t0)
  have hsplit : splitSign (c0 :: t0) = (false, c0 :: t0) :=
    splitSign_of_ne (digit_ne_special hc0).2.2.1 (digit_ne_special hc0).2.2.2.1 t0
  have hinf : isInfNan (c0 :: t0) = false :=
    isInfNan_eq_false_of_digit ⟨c0, List.mem_cons_self c0 t0, hc0⟩
  have hsfE : splitFirst (fun c => c == 'e' || c == 'E') (c0 :: t0) =
      (c0 :: t0, Option.none) := by
    refine splitFirst_of_all_not ?_
    intro c hc
    simp [(digit_ne_special (hd c hc)).2.2.2.2.1, (digit_ne_special (hd c hc)).2.2.2.2.2]
  have hmant := mantissaVal_digits hne hd
  constructor
  · unfold floatCore
    rw [hsplit]
    dsimp only
    rw [if_neg (by simp [hinf]), hsfE]
    dsimp only
    rw [hmant]
    rfl
  · unfold floatCore
    rw [show splitSign ('-' :: c0 :: t0) = (true, c0 :: t0) from rfl]
    dsimp only
    rw [if_neg (by simp [hinf]), hsfE]
    dsimp only
    rw [hmant]
    rfl

theorem pyFloatAccepts_intRender (n : Int) : pyFloatAccepts (intRender n) = true := by
  obtain ⟨hval, hdig, hne⟩ := natRenderChars_spec n.natAbs
  unfold pyFloatAccepts
  rw [pyStrip_intRender]
  by_cases hn : n < 0
  · rw [intRenderChars_eq_neg hn, (floatCore_digits hne hdig).2]
    simp
  · rw [intRenderChars_eq_nonneg (by omega), (floatCore_digits hne hdig).1]
    simp

theorem intRender_has_digit (n : Int) :
    ∃ c ∈ (intRender n).data, isDigitChar c = true := by
  obtain ⟨hval, hdig, hne⟩ := natRenderChars_spec n.natAbs
  obtain ⟨c0, t0, hct⟩ := List.exists_cons_of_ne_nil hne
  refine ⟨c0, ?_, hdig c0 (by rw [hct]; exact List.mem_cons_self c0 t0)⟩
  show c0 ∈ intRenderChars n
  unfold intRenderChars
  refine List.mem_append_right _ ?_
  rw [hct]
  exact List.mem_cons_self c0 t0

theorem pyStripStr_intRender (n : Int) : pyStripStr (intRender n) = intRender n := by
  show (⟨pyStrip (intRender n).data⟩ : String) = intRender n
  rw [pyStrip_intRender]
  rfl

theorem intRender_ne_empty (n : Int) : intRender n ≠ "" := by
  intro h
  obtain ⟨c, hc, _⟩ := intRender_has_digit n
  rw [h] at hc
  cases hc

theorem convertNumericStr_intRender (n : Int) :
    convertNumericStr (intRender n) = Value.int n := by
  unfold convertNumericStr
  rw [if_neg (intRender_ne_empty n)]
  have hdot : charIn '.' (intRender n).data = false := by
    refine charIn_eq_false_of_all ?_
    intro c hc
    rcases intRenderChars_chars n c hc with h | rfl
    · exact (digit_ne_special h).2.1
    · decide
  have he : charIn 'e' ((intRender n).data.map toLowerChar) = false := by
    refine charIn_eq_false_of_all ?_
    intro c hc
    obtain ⟨x, hx, rfl⟩ := List.mem_map.mp hc
    rcases intRenderChars_chars n x hx with h | rfl
    · rw [toLowerChar_digit h]
      exact (digit_ne_special h).2.2.2.2.1
    · decide
  rw [if_pos (by simp [hdot, he]), pyIntParse_render]

theorem defaultValuePipe_int (n : Int) :
    defaultValuePipe (Value.int n) = Value.int n := by
  unfold defaultValuePipe
  have h1 : normalizeValueFn (Value.int n) = Value.str (intRender n) := rfl
  have hnull : handleNulls (Value.str (intRender n)) = Value.str (intRender n) := by
    unfold handleNulls
    dsimp only
    rw [pyStripStr_intRender,
      if_neg (by simp [strIn_nullValues_false_of_digit (intRender_has_digit n)])]
  have hcond : numericCond (Value.str (intRender n)) = true := by
    show pyFloatAccepts (intRender n) = true
    exact pyFloatAccepts_intRender n
  rw [h1, hnull, if_pos hcond]
  show convertNumericStr (pyStripStr (intRender n)) = Value.int n
  rw [pyStripStr_intRender]
  exact convertNumericStr_intRender n

/-! Round trip of float rendering through the pipeline's parsers. -/

theorem paddedDigits_spec (m : Int) (e : Nat) :
    (∀ c ∈ paddedDigits m e, isDigitChar c = true) ∧
    digitsVal (paddedDigits m e) = m.natAbs ∧
    e + 1 ≤ (paddedDigits m e).length := by
  obtain ⟨hdval, hddig, hdne⟩ := natRenderChars_spec m.natAbs
  refine ⟨?_, ?_, ?_⟩
  · intro c hc
    rcases List.mem_append.mp hc with hc | hc
    · rw [List.eq_of_mem_replicate hc]
      decide
    · exact hddig c hc
  · unfold paddedDigits
    rw [digitsVal_replicate_zero]
    exact hdval
  · unfold paddedDigits
    rw [List.length_append, List.length_replicate]
    have h1 : 1 ≤ (natRenderChars m.natAbs).length := List.length_pos.mpr hdne
    omega

theorem floatIntPart_spec (m : Int) (e : Nat) :
    floatIntPart m e ≠ [] ∧ (∀ c ∈ floatIntPart m e, isDigitChar c = true) := by
  obtain ⟨hpd, hpv, hpl⟩ := paddedDigits_spec m e
  have hlen : (floatIntPart m e).length = (paddedDigits m e).length - e := by
    unfold floatIntPart
    rw [List.length_take]
    omega
  constructor
  · intro hnil
    rw [hnil] at hlen
    simp at hlen
    omega
  · intro c hc
    exact hpd c (List.take_subset _ _ hc)

theorem floatFracPart_spec (m : Int) (e : Nat) :
    floatFracPart m e ≠ [] ∧ (∀ c ∈ floatFracPart m e, isDigitChar c = true) ∧
    (floatFracPart m e).length = (if e = 0 then 1 else e) := by
  obtain ⟨hpd, hpv, hpl⟩ := paddedDigits_spec m e
  have hdlen : ((paddedDigits m e).drop ((paddedDigits m e).length - e)).length = e := by
    rw [List.length_drop]
    omega
  by_cases he : e = 0
  · subst he
    have hdrop : (paddedDigits m 0).drop ((paddedDigits m 0).length - 0) = [] :=
      List.length_eq_zero.mp hdlen
    refine ⟨?_, ?_, ?_⟩
    · unfold floatFracPart
      rw [hdrop]
      simp
    · unfold floatFracPart
      rw [hdrop]
      intro c hc
      simp at hc
      subst hc
      decide
    · unfold floatFracPart
      rw [hdrop]
      simp
  · refine ⟨?_, ?_, ?_⟩
    · unfold floatFracPart
      rw [if_neg he, List.append_nil]
      intro hnil
      rw [hnil] at hdlen
      simp at hdlen
      omega
    · unfold floatFracPart
      rw [if_neg he, List.append_nil]
      intro c hc
      exact hpd c (List.drop_subset _ _ hc)
    · unfold floatFracPart
      rw [if_neg he, List.append_nil, hdlen, if_neg he]

theorem floatParts_val (m : Int) (e : Nat) :
    digitsVal (floatIntPart m e) * tenPow (floatFracPart m e).length +
      digitsVal (floatFracPart m e) = (if e = 0 then m.natAbs * 10 else m.natAbs) := by
  obtain ⟨hpd, hpv, hpl⟩ := paddedDigits_spec m e
  have hdlen : ((paddedDigits m e).drop ((paddedDigits m e).length - e)).length = e := by
    rw [List.length_drop]
    omega
  by_cases he : e = 0
  · subst he
    have hip : floatIntPart m 0 = paddedDigits m 0 := by
      unfold floatIntPart
      rw [Nat.sub_zero, List.take_length]
    have hfp : floatFracPart m 0 = ['0'] := by
      unfold floatFracPart
      rw [List.length_eq_zero.mp hdlen]
      rfl
    rw [if_pos rfl, hip, hfp, hpv]
    have h0 : digitsVal ['0'] = 0 := by decide
    have h1 : tenPow (['0'] : List Char).length = 10 := rfl
    rw [h0, h1]
    omega
  · have hfp : floatFracPart m e =
        (paddedDigits m e).drop ((paddedDigits m e).length - e) := by
      unfold floatFracPart
      rw [if_neg he, List.append_nil]
    have hipdef : floatIntPart m e =
        (paddedDigits m e).take ((paddedDigits m e).length - e) := rfl
    rw [if_neg he, hfp, hipdef, ← digitsVal_append, List.take_append_drop]
    exact hpv

theorem mantissaVal_digits_pair {i f : List Char} (hi : i ≠ []) (hf : f ≠ [])
    (hdi : ∀ c ∈ i, isDigitChar c = true) (hdf : ∀ c ∈ f, isDigitChar c = true) :
    mantissaVal (i ++ '.' :: f) =
      Option.some (((digitsVal i * tenPow f.length + digitsVal f : Nat) : Int),
        f.length) := by
  have hvgi := validGroup_digits hi hdi
  have hvgf := validGroup_digits hf hdf
  have hgdi := groupDigits_of_digits hdi
  have hgdf := groupDigits_of_digits hdf
  obtain ⟨i0, ir, rfl⟩ := List.exists_cons_of_ne_nil hi
  obtain ⟨f0, fr, rfl⟩ := List.exists_cons_of_ne_nil hf
  unfold mantissaVal
  rw [splitFirst_append (by decide) _ (fun x hx => (digit_ne_special (hdi x hx)).2.1)]
  dsimp only
  rw [if_pos (by simp [hvgi, hvgf])]
  unfold groupVal
  rw [hgdi, hgdf]

theorem floatCore_digit_pair {i f : List Char} (hi : i ≠ []) (hf : f ≠ [])
    (hdi : ∀ c ∈ i, isDigitChar c = true) (hdf : ∀ c ∈ f, isDigitChar c = true) :
    floatCore (i ++ '.' :: f) =
      Option.some (canonPair
        (((digitsVal i * tenPow f.length + digitsVal f : Nat) : Int), f.length)) ∧
    floatCore ('-' :: (i ++ '.' :: f)) =
      Option.some (canonPair
        (-((digitsVal i * tenPow f.length + digitsVal f : Nat) : Int), f.length)) := by
  obtain ⟨i0, ir, hi0⟩ := List.exists_cons_of_ne_nil hi
  have hc0 : isDigitChar i0 = true := hdi i0 (by rw [hi0]; exact List.mem_cons_self _ _)
  have hconsform : i ++ '.' :: f = i0 :: (ir ++ '.' :: f) := by
    rw [hi0]
    rfl
  have hsplit : splitSign (i ++ '.' :: f) = (false, i ++ '.' :: f) := by
    rw [hconsform]
    exact splitSign_of_ne (digit_ne_special hc0).2.2.1 (digit_ne_special hc0).2.2.2.1 _
  have hinf : isInfNan (i ++ '.' :: f) = false := by
    refine isInfNan_eq_false_of_digit ⟨i0, ?_, hc0⟩
    rw [hconsform]
    exact List.mem_cons_self _ _
  have hsfE : splitFirst (fun c => c == 'e' || c == 'E') (i ++ '.' :: f) =
      (i ++ '.' :: f, Option.none) := by
    refine splitFirst_of_all_not ?_
    intro c hc
    rcases List.mem_append.mp hc with hc | hc
    · simp [(digit_ne_special (hdi c hc)).2.2.2.2.1,
        (digit_ne_special (hdi c hc)).2.2.2.2.2]
    · rcases List.mem_cons.mp hc with rfl | hc
      · decide
      · simp [(digit_ne_special (hdf c hc)).2.2.2.2.1,
          (digit_ne_special (hdf c hc)).2.2.2.2.2]
  have hmant := mantissaVal_digits_pair hi hf hdi hdf
  constructor
  · unfold floatCore
    rw [hsplit]
    dsimp only
    rw [if_neg (by simp [hinf]), hsfE]
    dsimp only
    rw [hmant]
    rfl
  · unfold floatCore
    rw [show splitSign ('-' :: (i ++ '.' :: f)) = (true, i ++ '.' :: f) from rfl]
    dsimp only
    rw [if_neg (by simp [hinf]), hsfE]
    dsimp only
    rw [hmant]
    rfl

theorem floatRender_facts (m : Int) (e : Nat) :
    pyStrip (floatRender m e).data = floatRenderChars m e ∧
    (∃ c ∈ (floatRender m e).data, isDigitChar c = true) ∧
    charIn '.' (floatRender m e).data = true := by
  obtain ⟨hipne, hipd⟩ := floatIntPart_spec m e
  obtain ⟨hfpne, hfpd, hfpl⟩ := floatFracPart_spec m e
  have hdata : (floatRender m e).data = floatRenderChars m e := rfl
  have hspace : ∀ c ∈ floatRenderChars m e, isSpaceChar c = false := by
    intro c hc
    unfold floatRenderChars at hc
    rcases List.mem_append.mp hc with hc | hc
    · by_cases hm : m < 0
      · rw [if_pos hm] at hc
        rcases List.mem_singleton.mp hc with rfl
        decide
      · rw [if_neg hm] at hc
        cases hc
    · rcases List.mem_append.mp hc with hc | hc
      · exact digit_not_space (hipd c hc)
      · rcases List.mem_cons.mp hc with rfl | hc
        · decide
        · exact digit_not_space (hfpd c hc)
  obtain ⟨i0, ir, hi0⟩ := List.exists_cons_of_ne_nil hipne
  refine ⟨?_, ?_, ?_⟩
  · rw [hdata]
    exact pyStrip_of_all_not hspace
  · refine ⟨i0, ?_, hipd i0 (by rw [hi0]; exact List.mem_cons_self _ _)⟩
    rw [hdata]
    unfold floatRenderChars
    refine List.mem_append_right _ (List.mem_append_left _ ?_)
    rw [hi0]
    exact List.mem_cons_self _ _
  · rw [hdata]
    refine charIn_of_mem ?_
    unfold floatRenderChars
    exact List.mem_append_right _ (List.mem_append_right _ (List.mem_cons_self _ _))

theorem canonAux_of_isCanon : ∀ (fuel : Nat) {m : Int} {e : Nat},
    isCanonFloat m e = true → canonAux fuel (m, e) = (m, e)
  | 0, _, _, _ => rfl
  | fuel + 1, m, e, h => by
    cases e with
    | zero => rfl
    | succ e' =>
      have hm : (m % 10 == 0) = false := by
        unfold isCanonFloat at h
        simp only [Bool.or_eq_true, beq_iff_eq] at h
        rcases h with h | h
        · omega
        · cases hb : (m % 10 == 0) with
          | false => rfl
          | true => rw [hb] at h; exact absurd h (by decide)
      show (if m % 10 == 0 then canonAux fuel (m / 10, e') else (m, e' + 1)) =
        (m, e' + 1)
      rw [if_neg (by simp [hm])]

theorem canonPair_of_isCanon {m : Int} {e : Nat} (hc : isCanonFloat m e = true) :
    canonPair (m, e) = (m, e) :=
  canonAux_of_isCanon e hc

theorem canonPair_mul10 (m : Int) : canonPair (m * 10, 1) = (m, 0) := by
  show (if m * 10 % 10 == 0 then canonAux 0 (m * 10 / 10, 0) else (m * 10, 1)) = (m, 0)
  rw [if_pos (by simp only [beq_iff_eq]; omega)]
  show (m * 10 / 10, 0) = (m, 0)
  congr 1
  omega

theorem pyFloatParse_render {m : Int} {e : Nat} (hcan : isCanonFloat m e = true) :
    pyFloatParse (floatRender m e) = Option.some (m, e) := by
  obtain ⟨hstrip, _, _⟩ := floatRender_facts m e
  obtain ⟨hipne, hipd⟩ := floatIntPart_spec m e
  obtain ⟨hfpne, hfpd, hfpl⟩ := floatFracPart_spec m e
  have hval := floatParts_val m e
  have hkey : ∀ S : Int, S = (if e = 0 then m * 10 else m) →
      Option.some (canonPair (S, (floatFracPart m e).length)) =
        Option.some ((m, e) : Int × Nat) := by
    intro S hS
    rw [hfpl, hS]
    by_cases he : e = 0
    · subst he
      rw [if_pos rfl, if_pos rfl, canonPair_mul10]
    · rw [if_neg he, if_neg he, canonPair_of_isCanon hcan]
  unfold pyFloatParse
  rw [hstrip]
  unfold floatRenderChars
  by_cases hm : m < 0
  · rw [if_pos hm, List.singleton_append,
      (floatCore_digit_pair hipne hfpne hipd hfpd).2]
    apply hkey
    rw [hval]
    by_cases he : e = 0
    · rw [if_pos he, if_pos he]
      omega
    · rw [if_neg he, if_neg he]
      omega
  · rw [if_neg hm, List.nil_append,
      (floatCore_digit_pair hipne hfpne hipd hfpd).1]
    apply hkey
    rw [hval]
    by_cases he : e = 0
    · rw [if_pos he, if_pos he]
      omega
    · rw [if_neg he, if_neg he]
      omega

theorem pyFloatAccepts_floatRender {m : Int} {e : Nat}
    (hcan : isCanonFloat m e = true) : pyFloatAccepts (floatRender m e) = true := by
  have hp := pyFloatParse_render hcan
  unfold pyFloatParse at hp
  unfold pyFloatAccepts
  rw [hp]
  simp

theorem floatRender_ne_empty (m : Int) (e : Nat) : floatRender m e ≠ "" := by
  intro h
  obtain ⟨_, hdig, _⟩ := floatRender_facts m e
  obtain ⟨c, hc, _⟩ := hdig
  rw [h] at hc
  cases hc

theorem pyStripStr_floatRender (m : Int) (e : Nat) :
    pyStripStr (floatRender m e) = floatRender m e := by
  obtain ⟨hstrip, _, _⟩ := floatRender_facts m e
  show (⟨pyStrip (floatRender m e).data⟩ : String) = floatRender m e
  rw [hstrip]
  rfl

theorem convertNumericStr_floatRender {m : Int} {e : Nat}
    (hcan : isCanonFloat m e = true) :
    convertNumericStr (floatRender m e) = Value.float m e := by
  obtain ⟨_, _, hdot⟩ := floatRender_facts m e
  unfold convertNumericStr
  rw [if_neg (floatRender_ne_empty m e), if_neg (by simp [hdot]),
    pyFloatParse_render hcan]

theorem defaultValuePipe_float {m : Int} {e : Nat} (hcan : isCanonFloat m e = true) :
    defaultValuePipe (Value.float m e) = Value.float m e := by
  obtain ⟨_, hdig, _⟩ := floatRender_facts m e
  unfold defaultValuePipe
  have h1 : normalizeValueFn (Value.float m e) = Value.str (floatRender m e) := rfl
  have hnull : handleNulls (Value.str (floatRender m e)) =
      Value.str (floatRender m e) := by
    unfold handleNulls
    dsimp only
    rw [pyStripStr_floatRender,
      if_neg (by simp [strIn_nullValues_false_of_digit hdig])]
  have hcond : numericCond (Value.str (floatRender m e)) = true :=
    pyFloatAccepts_floatRender hcan
  rw [h1, hnull, if_pos hcond]
  show convertNumericStr (pyStripStr (floatRender m e)) = Value.float m e
  rw [pyStripStr_floatRender]
  exact convertNumericStr_floatRender hcan

/-! ## Claim theorems -/

/-- Claim C1 (status: code_bug) — what the code actually does on the claim's
inputs.  The claim says `"2.3"` coerces to the float `2.3`; the code's first
default rule rewrites the value `"2.3"` to `"2_3"` (the column-name
normalizer is registered over values), after which Python's PEP-515
underscore rule makes `int("2_3") = 23`, so the field becomes the integer
`23`.  The `"42"` and `"abc"` parts of the claim do hold. -/
theorem C1_numeric_coercion_code_behavior :
    transformRecord defaultRules [("field", Value.str "2.3")] =
      Except.ok [("field", Value.int 23)]
    ∧ transformRecord defaultRules [("field", Value.str "42")] =
      Except.ok [("field", Value.int 42)]
    ∧ transformRecord defaultRules [("field", Value.str "abc")] =
      Except.ok [("field", Value.str "abc")]
    ∧ normalizeColumnName "2.3" = "2_3"
    ∧ pyIntParse "2_3" = Option.some 23 :=
  ⟨rfl, rfl, rfl, rfl, rfl⟩

/-- Claim C2 (status: code_bug) — what the code actually does on the claim's
inputs.  `""`, `"NULL"` and `"--"` do fold to null and `"0"` does not, but
`"N/A"` is first rewritten to `"n_a"` by the column-name rule running over
values, misses the sentinel set, and survives as the string `"n_a"`. -/
theorem C2_null_folding_code_behavior :
    transformRecord defaultRules [("f", Value.str "")] = Except.ok [("f", Value.null)]
    ∧ transformRecord defaultRules [("f", Value.str "N/A")] =
      Except.ok [("f", Value.str "n_a")]
    ∧ transformRecord defaultRules [("f", Value.str "NULL")] = Except.ok [("f", Value.null)]
    ∧ transformRecord defaultRules [("f", Value.str "--")] = Except.ok [("f", Value.null)]
    ∧ transformRecord defaultRules [("f", Value.str "0")] = Except.ok [("f", Value.int 0)] :=
  ⟨rfl, rfl, rfl, rfl, rfl⟩

/-- Claim C3: `where` replaces the entire stored condition list with the
single unprefixed condition, for every builder state; on the concrete chain
`where("a>1") ; and_where("b<2") ; where("c=3")` the built query's WHERE
clause is exactly `WHERE c=3` and neither `a>1` nor `b<2` occurs anywhere
in the output. -/
theorem C3_where_replaces :
    (∀ (b : QueryBuilder) (c : String),
      (QueryBuilder.where_ b c)._where_conditions = [c])
    ∧ QueryBuilder.build
        (QueryBuilder.where_
          (QueryBuilder.and_where
            (QueryBuilder.where_
              (QueryBuilder.from_table (QueryBuilder.select emptyBuilder ["pl_name"]) "ps")
              "a>1")
            "b<2")
          "c=3") = Except.ok "SELECT pl_name FROM ps WHERE c=3"
    ∧ listContainsSub "SELECT pl_name FROM ps WHERE c=3".data "a>1".data = false
    ∧ listContainsSub "SELECT pl_name FROM ps WHERE c=3".data "b<2".data = false :=
  ⟨fun _ _ => rfl, rfl, by decide, by decide⟩

/-- Claim C4 counterexample: the claim asserts that `transform_record` and
`transform_batch` never propagate an exception "for any registered rules",
but a rule whose gating condition raises escapes: the condition is evaluated
outside the `try` block of `transform_record`. -/
theorem C4_condition_escape_cex :
    transformRecord [condRaisingRule] [("k", Value.str "x")] =
      Except.error "condition raised"
    ∧ transformBatch [condRaisingRule] [[("k", Value.str "x")]] =
      Except.error "condition raised" :=
  ⟨rfl, rfl⟩

/-- Claim C4 (amended): a rule whose transform raises is caught — the field
keeps the value from before that rule and the remaining rules still run on
it (first two conjuncts); and provided no registered rule's condition
predicate raises, `transform_record`/`transform_batch` are total: each
record is normalized to its pure per-field fold and each record of a batch
independently of the others (last two conjuncts). -/
theorem C4_rule_failure_recovery :
    (∀ (r : TransformRule) (post : List TransformRule) (key : String)
      (v : Value) (e : String),
      (r.column == "*" || r.column == key) = true →
      (r.condition = Option.none ∨
        ∃ c, r.condition = Option.some c ∧ c v = Except.ok true) →
      r.transform v = Except.error e →
      applyRules (r :: post) key v = applyRules post key v)
    ∧ (∀ (rules1 rules2 : List TransformRule) (key : String) (v : Value),
        applyRules (rules1 ++ rules2) key v =
          (applyRules rules1 key v).bind (fun w => applyRules rules2 key w))
    ∧ (∀ rules, CondTotal rules → ∀ record,
        transformRecord rules record = Except.ok (transformRecordP rules record))
    ∧ (∀ rules, CondTotal rules → ∀ records,
        transformBatch rules records =
          Except.ok (records.map (transformRecordP rules))) := by
  refine ⟨?_, ?_, ?_, ?_⟩
  · intro r post key v e hcol hcond htr
    have hkeep : tryTransform r v = v := by
      simp [tryTransform, htr]
    have happ : applyRule key v r = Except.ok v := by
      rcases hcond with hnone | ⟨c, hc, hctrue⟩
      · simp [applyRule, hcol, hnone, hkeep]
      · simp [applyRule, hcol, hc, hctrue, hkeep]
    rw [applyRules_cons, happ]
    rfl
  · exact fun rules1 rules2 key v => applyRules_append rules1 rules2 key v
  · exact fun rules h record => transformRecord_of_condTotal h record
  · exact fun rules h records => transformBatch_of_condTotal h records

/-- Claim C4 witness: concrete instances of the amended theorem — a batch
containing a record hit by an always-raising transform is still fully
normalized (the field keeps its pre-rule value), and the failing rule acts
as a no-op in the rule fold. -/
theorem C4_witness :
    transformRecord [failingTransformRule] [("A B", Value.str "x")] =
      Except.ok [("a_b", Value.str "x")]
    ∧ transformBatch [failingTransformRule]
        [[("A B", Value.str "x")], [("k", Value.int 7)]] =
      Except.ok [[("a_b", Value.str "x")], [("k", Value.int 7)]]
    ∧ applyRules [failingTransformRule] "k" (Value.str "x") =
      applyRules [] "k" (Value.str "x") := by
  have htotal : CondTotal [failingTransformRule] := by
    intro r hr c hc v
    rw [List.mem_singleton] at hr
    subst hr
    exact absurd hc (by simp [failingTransformRule])
  refine ⟨?_, ?_, ?_⟩
  · rw [C4_rule_failure_recovery.2.2.1 [failingTransformRule] htotal]
    rfl
  · rw [C4_rule_failure_recovery.2.2.2 [failingTransformRule] htotal]
    rfl
  · exact C4_rule_failure_recovery.1 failingTransformRule [] "k" (Value.str "x")
      "transform failed" rfl (Or.inl rfl) rfl

/-- Claim C5: the first default rule replaces every non-string value by its
`str(...)` rendering before any later rule runs; consequently a null value
becomes the string `"None"`, a boolean the string `"True"`/`"False"` (both
outside the null-sentinel set and not numerically parsable, so they survive
to the output), while integer and float values round-trip back to numbers
through the numeric-coercion rule (floats in the canonical form the model's
parser produces). -/
theorem C5_first_rule_stringifies :
    (∀ v : Value, (∀ s, v ≠ Value.str s) → normalizeValueFn v = Value.str (pyStr v))
    ∧ (∀ k : String, transformRecord defaultRules [(k, Value.null)] =
        Except.ok [(normalizeColumnName k, Value.str "None")])
    ∧ (∀ (k : String) (b : Bool), transformRecord defaultRules [(k, Value.bool b)] =
        Except.ok [(normalizeColumnName k, Value.str (if b then "True" else "False"))])
    ∧ (strIn "None" nullValues = false ∧ pyFloatAccepts "None" = false ∧
       strIn "True" nullValues = false ∧ pyFloatAccepts "True" = false ∧
       strIn "False" nullValues = false ∧ pyFloatAccepts "False" = false)
    ∧ (∀ (k : String) (n : Int), transformRecord defaultRules [(k, Value.int n)] =
        Except.ok [(normalizeColumnName k, Value.int n)])
    ∧ (∀ (k : String) (m : Int) (e : Nat), isCanonFloat m e = true →
        transformRecord defaultRules [(k, Value.float m e)] =
          Except.ok [(normalizeColumnName k, Value.float m e)]) := by
  have hsingle : ∀ (k : String) (v : Value),
      transformRecord defaultRules [(k, v)] =
        Except.ok [(normalizeColumnName k, defaultValuePipe v)] :=
    fun k v => rfl
  refine ⟨?_, ?_, ?_, ?_, ?_, ?_⟩
  · intro v hv
    cases v with
    | str s => exact absurd rfl (hv s)
    | null => rfl
    | int n => rfl
    | float m e => rfl
    | bool b => rfl
  · intro k
    rfl
  · intro k b
    cases b <;> rfl
  · exact ⟨rfl, by decide, rfl, by decide, rfl, by decide⟩
  · intro k n
    rw [hsingle, defaultValuePipe_int n]
  · intro k m e hcan
    rw [hsingle, defaultValuePipe_float hcan]

/-- Claim C5 witness: the hypothesis-bearing conjuncts applied at concrete
inputs — a non-string value (an integer) is stringified by the first rule,
and the canonical float `2.3` (= `(23, 1)` in the decimal model) survives
the full default pipeline unchanged. -/
theorem C5_witness :
    normalizeValueFn (Value.int 0) = Value.str (pyStr (Value.int 0))
    ∧ transformRecord defaultRules [("PL_MASSE", Value.float 23 1)] =
      Except.ok [("pl_masse", Value.float 23 1)]
    ∧ transformRecord defaultRules [("k", Value.int (-45))] =
      Except.ok [("k", Value.int (-45))] := by
  refine ⟨?_, ?_, ?_⟩
  · exact C5_first_rule_stringifies.1 (Value.int 0) (fun s h => Value.noConfusion h)
  · exact C5_first_rule_stringifies.2.2.2.2.2 "PL_MASSE" 23 1 (by decide)
  · exact C5_first_rule_stringifies.2.2.2.2.1 "k" (-45)

/-- Claim C6 counterexample: on `select(['a']).from_table('t')` the code's
`to_url_encoded` yields `SELECT+a+FROM+t`, whereas replacing spaces and then
applying standard percent-encoding (as the claim states) would yield
`SELECT%2Ba%2BFROM%2Bt` — the source performs no percent-encoding at all. -/
theorem C6_no_percent_encoding_cex :
    QueryBuilder.build builderAT = Except.ok "SELECT a FROM t"
    ∧ QueryBuilder.to_url_encoded builderAT = Except.ok "SELECT+a+FROM+t"
    ∧ specStandardPercentEncode (QueryBuilder.spaceToPlus "SELECT a FROM t") =
      "SELECT%2Ba%2BFROM%2Bt"
    ∧ "SELECT+a+FROM+t" ≠ "SELECT%2Ba%2BFROM%2Bt" :=
  ⟨rfl, rfl, rfl, by decide⟩

/-- Claim C6 (amended): whenever `build()` succeeds, `to_url_encoded()`
returns `build()`'s output with every space replaced by `+`, and nothing
else (no percent-encoding); a failing `build()` propagates its error. -/
theorem C6_space_replacement :
    (∀ (b : QueryBuilder) (q : String), QueryBuilder.build b = Except.ok q →
      QueryBuilder.to_url_encoded b = Except.ok (QueryBuilder.spaceToPlus q))
    ∧ (∀ (b : QueryBuilder) (e : String), QueryBuilder.build b = Except.error e →
      QueryBuilder.to_url_encoded b = Except.error e) := by
  constructor
  · intro b q h
    unfold QueryBuilder.to_url_encoded
    rw [h]
    rfl
  · intro b e h
    unfold QueryBuilder.to_url_encoded
    rw [h]
    rfl

/-- Claim C6 witness: the amended theorem applied at the concrete builder
`select(['a']).from_table('t')`. -/
theorem C6_witness :
    QueryBuilder.to_url_encoded builderAT =
      Except.ok (QueryBuilder.spaceToPlus "SELECT a FROM t") :=
  C6_space_replacement.1 builderAT "SELECT a FROM t" rfl

/-- Claim C7: `and_where` on an empty condition list stores the condition
with its `AND ` prefix; at serialization time the leading `AND `/`OR ` is
stripped from the first stored element only, later elements keeping their
stored prefixes, space-joined; concretely, `and_where("x=1")` as the very
first condition call yields `WHERE x=1`. -/
theorem C7_and_where_first :
    (∀ (b : QueryBuilder) (c : String), b._where_conditions = [] →
      (QueryBuilder.and_where b c)._where_conditions = ["AND " ++ c])
    ∧ (∀ (c : String) (rest : List String),
        whereParts (("AND " ++ c) :: rest) =
          ["WHERE " ++ c ++ (if rest.isEmpty then "" else " " ++ strJoin " " rest)])
    ∧ QueryBuilder.build (QueryBuilder.and_where builderAT "x=1") =
      Except.ok "SELECT a FROM t WHERE x=1"
    ∧ QueryBuilder.build
        (QueryBuilder.and_where (QueryBuilder.and_where builderAT "x=1") "y=2") =
      Except.ok "SELECT a FROM t WHERE x=1 AND y=2" := by
  refine ⟨?_, ?_, rfl, rfl⟩
  · intro b c h
    simp [QueryBuilder.and_where, h]
  · intro c rest
    simp [whereParts, stripLeadingOp_and]

/-- Claim C7 witness: the hypothesis-bearing conjunct applied at the empty
builder and a concrete condition. -/
theorem C7_witness :
    (QueryBuilder.and_where emptyBuilder "x=1")._where_conditions = ["AND " ++ "x=1"]
    ∧ whereParts ["AND " ++ "x=1"] = ["WHERE " ++ "x=1" ++ ""] := by
  constructor
  · exact C7_and_where_first.1 emptyBuilder "x=1" rfl
  · have h := C7_and_where_first.2.1 "x=1" []
    simpa using h

/-- Claim C8 counterexample: the claim's "if and only if … from-table is
unset" fails — `from_table("")` leaves the from-table set (to the empty
string), yet `build()` still raises, because the source tests Python
truthiness (`not self._from_table`), not unsetness. -/
theorem C8_empty_table_cex :
    QueryBuilder.build (QueryBuilder.from_table (QueryBuilder.select emptyBuilder ["a"]) "") =
      Except.error "FROM table must be specified"
    ∧ (QueryBuilder.from_table (QueryBuilder.select emptyBuilder ["a"]) "")._select_columns ≠ []
    ∧ (QueryBuilder.from_table (QueryBuilder.select emptyBuilder ["a"]) "")._from_table ≠
      Option.none :=
  ⟨rfl, by decide, by decide⟩

/-- Claim C8 (amended): `build()` raises a validation error iff the select
list is empty or the from-table is unset **or set to the empty string**
(Python truthiness); `build` reads the state without mutating it (it is a
pure function of the builder in this embedding), so supplying the missing
clause afterwards makes a retry succeed on the same builder. -/
theorem C8_build_validation :
    (∀ b : QueryBuilder,
      (∃ e, QueryBuilder.build b = Except.error e) ↔
        (b._select_columns = [] ∨ b._from_table = Option.none ∨
          b._from_table = Option.some ""))
    ∧ (∀ (b : QueryBuilder) (cols : List String) (t : String),
        cols ≠ [] → t ≠ "" →
        ∃ q, QueryBuilder.build (QueryBuilder.from_table (QueryBuilder.select b cols) t) =
          Except.ok q) := by
  refine ⟨build_error_iff, ?_⟩
  intro b cols t hcols ht
  cases hb : QueryBuilder.build (QueryBuilder.from_table (QueryBuilder.select b cols) t) with
  | ok q => exact ⟨q, rfl⟩
  | error e =>
    have h2 := (build_error_iff _).mp ⟨e, hb⟩
    rcases h2 with h | h | h
    · exact absurd h hcols
    · exact Option.noConfusion h
    · exact absurd (Option.some.inj h) ht

/-- Claim C8 witness: a failed build retried after supplying the missing
clause succeeds, at concrete inputs. -/
theorem C8_witness :
    ∃ q, QueryBuilder.build
      (QueryBuilder.from_table (QueryBuilder.select emptyBuilder ["a"]) "t") =
        Except.ok q :=
  C8_build_validation.2 emptyBuilder ["a"] "t" (by decide) (by decide)

/-- Claim C9: `polygon` raises exactly the input error for fewer than 3
vertex pairs; with at least 3 it returns the containment-predicate template
with the vertices' coordinates flattened in order and comma-joined (and
that flattened list occurs verbatim in the output); concretely the claim's
two instances. -/
theorem C9_polygon_vertices :
    (∀ (coords : List (Int × Int)) (cs : String), coords.length < 3 →
      SpatialConstraints.polygon coords cs =
        Except.error "Polygon must have at least 3 vertices")
    ∧ (∀ (coords : List (Int × Int)) (cs : String), 3 ≤ coords.length →
        SpatialConstraints.polygon coords cs =
          Except.ok ("contains(point('" ++ cs ++ "',ra,dec),polygon('" ++ cs ++ "'," ++
            strJoin "," (coords.map (fun p => intRender p.1 ++ "," ++ intRender p.2)) ++
            "))=1")
        ∧ ∀ q, SpatialConstraints.polygon coords cs = Except.ok q →
            listContainsSub q.data
              (strJoin ","
                (coords.map (fun p => intRender p.1 ++ "," ++ intRender p.2))).data = true)
    ∧ SpatialConstraints.polygon [(1, 2), (3, 4)] "icrs" =
      Except.error "Polygon must have at least 3 vertices"
    ∧ SpatialConstraints.polygon [(1, 2), (3, 4), (5, 6)] "icrs" =
      Except.ok "contains(point('icrs',ra,dec),polygon('icrs',1,2,3,4,5,6))=1"
    ∧ listContainsSub
        "contains(point('icrs',ra,dec),polygon('icrs',1,2,3,4,5,6))=1".data
        "1,2,3,4,5,6".data = true := by
  refine ⟨?_, ?_, rfl, rfl, by decide⟩
  · intro coords cs h
    simp [SpatialConstraints.polygon, h]
  · intro coords cs h
    have hlt : ¬ coords.length < 3 := not_lt.mpr h
    constructor
    · simp [SpatialConstraints.polygon, hlt]
    · intro q hq
      unfold SpatialConstraints.polygon at hq
      rw [if_neg hlt] at hq
      injection hq with hq
      subst hq
      rw [String.data_append, String.data_append]
      exact listContainsSub_append_self2 _ _ _

/-- Claim C10: field-name canonicalization is idempotent for every string,
and the two concrete examples: `"PL_NAME" ↦ "pl_name"`,
`"pl__Name!" ↦ "pl_name"`. -/
theorem C10_canonicalization_idempotent :
    (∀ s : String, normalizeColumnName (normalizeColumnName s) = normalizeColumnName s)
    ∧ normalizeColumnName "PL_NAME" = "pl_name"
    ∧ normalizeColumnName "pl__Name!" = "pl_name" := by
  refine ⟨?_, rfl, rfl⟩
  have key : ∀ L : List Char,
      (∀ c ∈ L, isWordChar c = true ∧ isUpperChar c = false) →
      noDoubleUnder L = true →
      L.dropWhile (fun c => c == '_') = L →
      dropTrailing (fun c => c == '_') L = L →
      normalizeColumnName ⟨L⟩ = ⟨L⟩ := by
    intro L hchars hnd hdw hdt
    have hmap1 : L.map toLowerChar = L :=
      map_id_of_fix (fun c hc => toLowerChar_of_not_upper (hchars c hc).2)
    have hmap2 : L.map subWordChar = L :=
      map_id_of_fix (fun c hc => subWordChar_of_word (hchars c hc).1)
    have h2 : normalizeColumnName ⟨L⟩ =
        ⟨dropTrailing (fun c => c == '_')
          ((collapseUnders ((L.map toLowerChar).map subWordChar)).dropWhile
            (fun c => c == '_'))⟩ := rfl
    rw [h2, hmap1, hmap2, collapseUnders_of_noDouble hnd, hdw, hdt]
  intro s
  have h1 : normalizeColumnName s =
      ⟨dropTrailing (fun c => c == '_')
        ((collapseUnders ((s.data.map toLowerChar).map subWordChar)).dropWhile
          (fun c => c == '_'))⟩ := rfl
  rw [h1]
  refine key _ ?_ ?_ ?_ ?_
  · intro c hc
    have hc3 : c ∈ (s.data.map toLowerChar).map subWordChar :=
      mem_of_mem_collapseUnders (mem_of_mem_dropWhile (mem_of_mem_dropTrailing hc))
    obtain ⟨x, hx, rfl⟩ := List.mem_map.mp hc3
    obtain ⟨y, _, rfl⟩ := List.mem_map.mp hx
    exact ⟨isWordChar_subWordChar _, isUpperChar_subWordChar_toLower _⟩
  · exact noDoubleUnder_dropTrailing
      (noDoubleUnder_dropWhile (noDoubleUnder_collapseUnders _))
  · refine dropWhile_of_head_not ?_
    intro x hx
    exact head_dropTrailing_dropWhile_not (p := fun c => c == '_') hx
  · exact dropTrailing_idem _

/-- Claim C9 witness: both hypothesis-bearing conjuncts applied at the
claim's concrete vertex lists. -/
theorem C9_witness :
    SpatialConstraints.polygon [(1, 2), (3, 4)] "icrs" =
      Except.error "Polygon must have at least 3 vertices"
    ∧ SpatialConstraints.polygon [(1, 2), (3, 4), (5, 6)] "icrs" =
      Except.ok ("contains(point('" ++ "icrs" ++ "',ra,dec),polygon('" ++ "icrs" ++ "'," ++
        strJoin ","
          ([(1, 2), (3, 4), (5, 6)].map
            (fun p : Int × Int => intRender p.1 ++ "," ++ intRender p.2)) ++ "))=1") :=
  ⟨C9_polygon_vertices.1 [(1, 2), (3, 4)] "icrs" (by decide),
   (C9_polygon_vertices.2.1 [(1, 2), (3, 4), (5, 6)] "icrs" (by decide)).1⟩

end NasaPort
